import Mathlib

/-!
Shallow embedding of `@tps/utils` (`src/lib/tps-caster.ts`): the `TpsCaster`
coercion engine and its `TpsCasterOptions` resolver, together with proofs of
the behavioural properties claimed for them.

Modelling conventions:
* JavaScript values appearing in records are modelled by the inductive `Value`.
* JavaScript numbers are idealised as exact rationals (plus signed infinities);
  `NaN` is `none` at the use sites that can produce it.
* A JavaScript `Date` is its time value in milliseconds (`some ms`) or an
  Invalid Date (`none`).
* Fallible engine steps return `Option`: `JSON.parse`'s exception is caught at
  its single call site, and the one uncaught throw the engine can perform
  (`Object.assign` onto a `null` target) surfaces as `none` from `castPair`.
* Mutation is made explicit: `castPair` returns both the call's result and the
  post-call state of the input value (state passing), so the
  `rewriteFields` copy-vs-mutate behaviour is observable.
-/

set_option maxRecDepth 10000

namespace TpsUtils

/-- A JavaScript number as produced by `Number(...)`: a finite value
(idealised as an exact rational) or a signed infinity.  `NaN` is represented
as `none` where an `Option JNum` is used. -/
inductive JNum : Type where
  | fin (q : ℚ) : JNum
  | posInf : JNum
  | negInf : JNum
deriving DecidableEq, Repr

/-- A JavaScript `Date`: `some ms` is a valid date holding its time value in
milliseconds since the Unix epoch, `none` is an Invalid Date. -/
abbrev JDate := Option Int

/-- The type tags usable in a caster schema (`TpsCasterSchemaTypes`):
`'string'|'number'|'date'|'boolean'|'object'`. -/
inductive SchemaTy : Type where
  | str
  | num
  | date
  | bool
  | obj
deriving DecidableEq, Repr

/-- A schema entry (`TpsCasterSchema` values): either a boolean or a type tag. -/
inductive SchemaVal : Type where
  | b (b : Bool)
  | ty (t : SchemaTy)
deriving DecidableEq, Repr

/-- A schema: field names mapped to booleans or type tags (assoc list in
insertion order, mirroring a JS object literal). -/
abbrev Schema := List (String × SchemaVal)

mutual

/-- A JavaScript value as the caster sees it.  Records (`vObj`) carry their
properties in insertion order, which is the `for..in` iteration order. -/
inductive Value : Type where
  | vNull
  | vStr (s : String)
  | vNum (n : JNum)
  | vBool (b : Bool)
  | vDate (d : JDate)
  | vObj (fields : Fields)
  | vArr (elems : Elems)

/-- The property list of a record: key/value pairs in insertion order. -/
inductive Fields : Type where
  | nil
  | cons (k : String) (v : Value) (rest : Fields)

/-- The element list of an array value. -/
inductive Elems : Type where
  | nil
  | cons (v : Value) (rest : Elems)

end

mutual

/-- Boolean equality on values (structural). -/
def Value.beq : Value → Value → Bool
  | .vNull, .vNull => true
  | .vStr a, .vStr b => a = b
  | .vNum a, .vNum b => a = b
  | .vBool a, .vBool b => a = b
  | .vDate a, .vDate b => a = b
  | .vObj a, .vObj b => Fields.beq a b
  | .vArr a, .vArr b => Elems.beq a b
  | _, _ => false

/-- Boolean equality on property lists. -/
def Fields.beq : Fields → Fields → Bool
  | .nil, .nil => true
  | .cons k v r, .cons k' v' r' => k = k' && Value.beq v v' && Fields.beq r r'
  | _, _ => false

/-- Boolean equality on element lists. -/
def Elems.beq : Elems → Elems → Bool
  | .nil, .nil => true
  | .cons v r, .cons v' r' => Value.beq v v' && Elems.beq r r'
  | _, _ => false

end

mutual

theorem Value.beq_iff_value : ∀ a b : Value, Value.beq a b = true ↔ a = b
  | .vNull, b => by cases b <;> simp [Value.beq]
  | .vStr s, b => by cases b <;> simp [Value.beq]
  | .vNum n, b => by cases b <;> simp [Value.beq]
  | .vBool x, b => by cases b <;> simp [Value.beq]
  | .vDate d, b => by cases b <;> simp [Value.beq]
  | .vObj f, b => by
    cases b
    case vObj g => simpa [Value.beq] using Fields.beq_iff_fields f g
    all_goals simp [Value.beq]
  | .vArr e, b => by
    cases b
    case vArr g => simpa [Value.beq] using Elems.beq_iff_elems e g
    all_goals simp [Value.beq]

theorem Fields.beq_iff_fields : ∀ a b : Fields, Fields.beq a b = true ↔ a = b
  | .nil, b => by cases b <;> simp [Fields.beq]
  | .cons k v r, b => by
    cases b
    case cons k' v' r' =>
      simp [Fields.beq, Value.beq_iff_value v v', Fields.beq_iff_fields r r']
      tauto
    all_goals simp [Fields.beq]

theorem Elems.beq_iff_elems : ∀ a b : Elems, Elems.beq a b = true ↔ a = b
  | .nil, b => by cases b <;> simp [Elems.beq]
  | .cons v r, b => by
    cases b
    case cons v' r' =>
      simp [Elems.beq, Value.beq_iff_value v v', Elems.beq_iff_elems r r']
    all_goals simp [Elems.beq]

end

instance : DecidableEq Value := fun a b =>
  decidable_of_iff (Value.beq a b = true) (Value.beq_iff_value a b)

instance : DecidableEq Fields := fun a b =>
  decidable_of_iff (Fields.beq a b = true) (Fields.beq_iff_fields a b)

instance : DecidableEq Elems := fun a b =>
  decidable_of_iff (Elems.beq a b = true) (Elems.beq_iff_elems a b)

/-- JavaScript truthiness of a number (`!!val`): only `0` (and `NaN`,
which never occurs stored) is falsy. -/
def jnumTruthy : JNum → Bool
  | .fin q => decide (q ≠ 0)
  | _ => true

/-- JavaScript truthiness of a `Value` (`if(!val) continue`):
`null`, `''`, `0` and `false` are falsy; every object is truthy. -/
def truthy : Value → Bool
  | .vNull => false
  | .vStr s => decide (0 < s.length)
  | .vNum n => jnumTruthy n
  | .vBool b => b
  | .vDate _ => true
  | .vObj _ => true
  | .vArr _ => true

/-- `typeof v === 'object'`: true for `null`, `Date`s, plain objects and
arrays. -/
def typeofObject : Value → Bool
  | .vNull => true
  | .vDate _ => true
  | .vObj _ => true
  | .vArr _ => true
  | _ => false

/-! ### Character and string helpers -/

/-- ASCII decimal digit test. -/
def isDigit (c : Char) : Bool := '0' ≤ c && c ≤ '9'

/-- Value of an ASCII decimal digit. -/
def digitVal (c : Char) : Nat := c.toNat - '0'.toNat

/-- JavaScript `String.prototype.toLowerCase`, restricted to ASCII (the only
case the caster's boolean literals exercise). -/
def jsToLower (s : String) : String :=
  String.mk (s.data.map fun c => if 'A' ≤ c && c ≤ 'Z' then Char.ofNat (c.toNat + 32) else c)

/-- Whitespace characters stripped by `Number(...)` (ASCII subset; the
exotic Unicode space classes are not modelled). -/
def isJsWs (c : Char) : Bool :=
  c = ' ' || c = '\t' || c = '\n' || c = '\r' || c = Char.ofNat 11 || c = Char.ofNat 12

/-- Drop leading JS whitespace. -/
def dropWsLeft : List Char → List Char
  | [] => []
  | c :: cs => if isJsWs c then dropWsLeft cs else c :: cs

/-- Trim JS whitespace from both ends. -/
def trimWs (cs : List Char) : List Char :=
  ((dropWsLeft cs.reverse).reverse |> dropWsLeft)

/-- Digits of a list read as a base-`b` natural number (caller checks digit
validity). -/
def natOfDigits (b : Nat) (f : Char → Nat) (cs : List Char) : Nat :=
  cs.foldl (fun acc c => acc * b + f c) 0

/-- ASCII hex digit test. -/
def isHexDigit (c : Char) : Bool :=
  isDigit c || ('a' ≤ c && c ≤ 'f') || ('A' ≤ c && c ≤ 'F')

/-- Value of an ASCII hex digit. -/
def hexVal (c : Char) : Nat :=
  if isDigit c then digitVal c
  else if 'a' ≤ c && c ≤ 'f' then c.toNat - 'a'.toNat + 10
  else c.toNat - 'A'.toNat + 10

/-! ### `Number(val)` — the numeric parsing used by the number heuristic -/

/-- Split the longest leading run of decimal digits. -/
def spanDigits : List Char → List Char × List Char
  | [] => ([], [])
  | c :: cs =>
    if isDigit c then
      let (ds, rest) := spanDigits cs
      (c :: ds, rest)
    else ([], c :: cs)

/-- Parse the exponent part `e|E [+-] digits` (input is everything after the
mantissa); returns the signed exponent, or `none` if malformed. -/
def parseExponent : List Char → Option Int
  | [] => some 0
  | c :: cs =>
    if c = 'e' || c = 'E' then
      let (sgn, rest) := match cs with
        | '+' :: r => ((1 : Int), r)
        | '-' :: r => ((-1 : Int), r)
        | r => ((1 : Int), r)
      let (ds, rest') := spanDigits rest
      if ds.isEmpty || !rest'.isEmpty then none
      else some (sgn * (natOfDigits 10 digitVal ds : Int))
    else none

/-- Exact rational `sgn * digits * 10 ^ e / 10 ^ fracLen` built without ℚ
arithmetic (so that it evaluates in the kernel). -/
def scaledRat (sgn : Int) (digits : Nat) (fracLen : Nat) (e : Int) : ℚ :=
  if 0 ≤ e then mkRat (sgn * (digits * 10 ^ e.toNat : Nat)) (10 ^ fracLen)
  else mkRat (sgn * (digits : Int)) (10 ^ (fracLen + (-e).toNat))

/-- Parse a StrDecimalLiteral (after trimming, without the special forms):
`[+-]? (digits [. digits?] | . digits) exponent?`. `none` models NaN. -/
def parseDecimal (cs : List Char) : Option ℚ :=
  let (sgn, body) := match cs with
    | '+' :: r => ((1 : Int), r)
    | '-' :: r => ((-1 : Int), r)
    | r => ((1 : Int), r)
  let (intDs, afterInt) := spanDigits body
  let (fracDs, afterFrac) := match afterInt with
    | '.' :: r =>
      let (ds, rest) := spanDigits r
      (some ds, rest)
    | r => (none, r)
  let fracList := (fracDs.getD [])
  if intDs.isEmpty && fracList.isEmpty then none
  else match parseExponent afterFrac with
    | none => none
    | some e => some (scaledRat sgn (natOfDigits 10 digitVal (intDs ++ fracList)) fracList.length e)

/-- JavaScript `Number(val)` on a string: `none` is NaN.  The empty (or
all-whitespace) string is `0`; `Infinity` forms, `0x`/`0o`/`0b` radix
literals and decimal literals are recognised; anything else is NaN. -/
def jsNumber (s : String) : Option JNum :=
  let cs := trimWs s.data
  if cs.isEmpty then some (.fin 0)
  else if cs = "Infinity".data || cs = "+Infinity".data then some .posInf
  else if cs = "-Infinity".data then some .negInf
  else match cs with
    | '0' :: x :: rest =>
      if (x = 'x' || x = 'X') && !rest.isEmpty && rest.all isHexDigit then
        some (.fin (mkRat (natOfDigits 16 hexVal rest) 1))
      else if (x = 'o' || x = 'O') && !rest.isEmpty && rest.all (fun c => '0' ≤ c && c ≤ '7') then
        some (.fin (mkRat (natOfDigits 8 digitVal rest) 1))
      else if (x = 'b' || x = 'B') && !rest.isEmpty && rest.all (fun c => c = '0' || c = '1') then
        some (.fin (mkRat (natOfDigits 2 digitVal rest) 1))
      else (parseDecimal cs).map .fin
    | _ => (parseDecimal cs).map .fin

/-! ### Dates -/

/-- Leap year test (proleptic Gregorian, as used by JS `Date`). -/
def isLeap (y : Int) : Bool := y % 4 = 0 && (y % 100 ≠ 0 || y % 400 = 0)

/-- Days in a month. -/
def daysInMonth (y : Int) (m : Nat) : Nat :=
  match m with
  | 1 => 31 | 2 => if isLeap y then 29 else 28 | 3 => 31 | 4 => 30 | 5 => 31 | 6 => 30
  | 7 => 31 | 8 => 31 | 9 => 30 | 10 => 31 | 11 => 30 | 12 => 31
  | _ => 0

/-- Days from the Unix epoch to the civil date `y-m-d` (floored-division
variant of the standard civil-calendar conversion). -/
def daysFromCivil (y : Int) (m d : Nat) : Int :=
  let y' : Int := if m ≤ 2 then y - 1 else y
  let era : Int := Int.ediv y' 400
  let yoe : Int := y' - era * 400
  let mp : Int := if 2 < m then (m : Int) - 3 else (m : Int) + 9
  let doy : Int := Int.ediv (153 * mp + 2) 5 + (d : Int) - 1
  let doe : Int := yoe * 365 + Int.ediv yoe 4 - Int.ediv yoe 100 + doy
  era * 146097 + doe - 719468

/-- Civil date from days since the Unix epoch (inverse of `daysFromCivil`). -/
def civilFromDays (z0 : Int) : Int × Nat × Nat :=
  let z := z0 + 719468
  let era : Int := Int.ediv z 146097
  let doe : Int := z - era * 146097
  let yoe : Int := Int.ediv (doe - Int.ediv doe 1460 + Int.ediv doe 36524 - Int.ediv doe 146096) 365
  let y : Int := yoe + era * 400
  let doy : Int := doe - (365 * yoe + Int.ediv yoe 4 - Int.ediv yoe 100)
  let mp : Int := Int.ediv (5 * doy + 2) 153
  let d : Int := doy - Int.ediv (153 * mp + 2) 5 + 1
  let m : Int := if mp < 10 then mp + 3 else mp - 9
  ((if m ≤ 2 then y + 1 else y), m.toNat, d.toNat)

/-- Millisecond timestamp of a validated civil date-time, or `none` if a
component is out of range. -/
def mkDateMs (y : Int) (mo dy hh mi ss : Nat) : JDate :=
  if 1 ≤ mo && mo ≤ 12 && 1 ≤ dy && dy ≤ daysInMonth y mo && hh ≤ 23 && mi ≤ 59 && ss ≤ 59 then
    some (daysFromCivil y mo dy * 86400000 + ((hh * 3600 + mi * 60 + ss : Nat) : Int) * 1000)
  else none

/-- Numeric value of a fixed run of ASCII digits. -/
def digitsNat (cs : List Char) : Nat := natOfDigits 10 digitVal cs

/-- JavaScript `new Date(string)`.  Modelled: the two ISO-8601 shapes the
caster's default date patterns are written for (`yyyy-mm-dd` and
`yyyy-mm-ddTHH:MM:SSZ`, interpreted as UTC), with calendar validation.
Engine-specific legacy formats (such as `dd-mm-yyyy`, which real engines
parse locale-dependently) are modelled as Invalid Date. -/
def jsParseDate (s : String) : JDate :=
  match s.data with
  | [a, b, c, d, '-', e, f, '-', g, h] =>
    if [a, b, c, d, e, f, g, h].all isDigit then
      mkDateMs (digitsNat [a, b, c, d] : Int) (digitsNat [e, f]) (digitsNat [g, h]) 0 0 0
    else none
  | [a, b, c, d, '-', e, f, '-', g, h, 'T', i, j, ':', k, l, ':', m, n, 'Z'] =>
    if [a, b, c, d, e, f, g, h, i, j, k, l, m, n].all isDigit then
      mkDateMs (digitsNat [a, b, c, d] : Int) (digitsNat [e, f]) (digitsNat [g, h])
        (digitsNat [i, j]) (digitsNat [k, l]) (digitsNat [m, n])
    else none
  | _ => none

/-- `new Date(number)`: the argument is a millisecond timestamp, truncated
toward zero; out-of-range and infinite arguments give an Invalid Date. -/
def jsDateOfNum (n : JNum) : JDate :=
  match n with
  | .fin q =>
    let t : Int := Int.tdiv q.num (q.den : Int)
    if t.natAbs ≤ 8640000000000000 then some t else none
  | _ => none

/-- The default date gate
`^(?:(\d{4}-\d{2}-\d{2})(?:T\d{2}:\d{2}:\d{2}Z)?)|(?:\d{2}-\d{2}-(?:\d{2}|\d{4}))$`
as a string test (`RegExp.prototype.test`).  Because the alternation binds the
anchors to one branch each, the first branch requires only a
`\d{4}-\d{2}-\d{2}` *start* of the string (its optional time-suffix group can
match the empty string), and the second branch only a `\d{2}-\d{2}-\d{2}` or
`\d{2}-\d{2}-\d{4}` *end* of the string. -/
def regexDefaultTest (s : String) : Bool :=
  let startsYmd := match s.data with
    | a :: b :: c :: d :: '-' :: e :: f :: '-' :: g :: h :: _ =>
      [a, b, c, d, e, f, g, h].all isDigit
    | _ => false
  let endsDdDdDd := match s.data.reverse with
    | a :: b :: '-' :: c :: d :: '-' :: e :: f :: _ =>
      [a, b, c, d, e, f].all isDigit
    | _ => false
  let endsDdDdDddd := match s.data.reverse with
    | a :: b :: c :: d :: '-' :: e :: f :: '-' :: g :: h :: _ =>
      [a, b, c, d, e, f, g, h].all isDigit
    | _ => false
  startsYmd || endsDdDdDd || endsDdDdDddd

/-! ### Boolean literals -/

/-- The boolean heuristic's literal test:
`val.toLowerCase() === 'true'`, else `'false'`, else no match. -/
def jsBoolLit (s : String) : Option Bool :=
  if jsToLower s = "true" then some true
  else if jsToLower s = "false" then some false
  else none

/-! ### `JSON.parse` -/

/-- JSON insignificant whitespace. -/
def jsonWsChar (c : Char) : Bool := c = ' ' || c = '\t' || c = '\n' || c = '\r'

/-- Skip JSON whitespace. -/
def skipJsonWs : List Char → List Char
  | [] => []
  | c :: cs => if jsonWsChar c then skipJsonWs cs else c :: cs

/-- Parse the body of a JSON string after the opening quote.  Returns the
decoded characters and the remainder after the closing quote.  `\uXXXX`
escapes are decoded as single code units (surrogate pairs are not joined). -/
def jsonStringBody : Nat → List Char → Option (List Char × List Char)
  | 0, _ => none
  | _ + 1, [] => none
  | fuel + 1, c :: cs =>
    if c = '"' then some ([], cs)
    else if c = '\\' then
      match cs with
      | [] => none
      | e :: cs' =>
        let dec : Option (Char × List Char) :=
          if e = '"' || e = '\\' || e = '/' then some (e, cs')
          else if e = 'b' then some (Char.ofNat 8, cs')
          else if e = 'f' then some (Char.ofNat 12, cs')
          else if e = 'n' then some ('\n', cs')
          else if e = 'r' then some ('\r', cs')
          else if e = 't' then some ('\t', cs')
          else if e = 'u' then
            match cs' with
            | h1 :: h2 :: h3 :: h4 :: cs'' =>
              if [h1, h2, h3, h4].all isHexDigit then
                some (Char.ofNat (natOfDigits 16 hexVal [h1, h2, h3, h4]), cs'')
              else none
            | _ => none
          else none
        match dec with
        | none => none
        | some (ch, rest) =>
          (jsonStringBody fuel rest).map fun p => (ch :: p.1, p.2)
    else if c.toNat < 32 then none
    else (jsonStringBody fuel cs).map fun p => (c :: p.1, p.2)

/-- Parse a JSON number (strict JSON grammar: `-?(0|[1-9]\d*)(\.\d+)?
([eE][+-]?\d+)?`). -/
def jsonNumber (cs : List Char) : Option (ℚ × List Char) :=
  let (sgn, body) := match cs with
    | '-' :: r => ((-1 : Int), r)
    | r => ((1 : Int), r)
  let (intDs, afterInt) := spanDigits body
  let intOk := match intDs with
    | [] => false
    | ['0'] => true
    | c :: _ => c ≠ '0'
  if !intOk then none
  else
    let (fracDs, afterFrac) := match afterInt with
      | '.' :: r =>
        let (ds, rest) := spanDigits r
        (ds, rest)
      | r => ([], r)
    let fracBad := match afterInt with
      | '.' :: _ => fracDs.isEmpty
      | _ => false
    if fracBad then none
    else
      let (expVal, afterExp, expBad) := match afterFrac with
        | c :: r =>
          if c = 'e' || c = 'E' then
            let (es, r') := match r with
              | '+' :: r'' => ((1 : Int), r'')
              | '-' :: r'' => ((-1 : Int), r'')
              | r'' => ((1 : Int), r'')
            let (eds, r'') := spanDigits r'
            if eds.isEmpty then ((0 : Int), r'', true)
            else (es * (digitsNat eds : Int), r'', false)
          else ((0 : Int), c :: r, false)
        | [] => ((0 : Int), [], false)
      if expBad then none
      else some (scaledRat sgn (digitsNat (intDs ++ fracDs)) fracDs.length expVal, afterExp)

mutual

/-- Parse one JSON value (fuelled; fuel `length + 1` always suffices since
every nesting level consumes at least one character). -/
def jsonValueF : Nat → List Char → Option (Value × List Char)
  | 0, _ => none
  | fuel + 1, cs =>
    match skipJsonWs cs with
    | 'n' :: 'u' :: 'l' :: 'l' :: rest => some (.vNull, rest)
    | 't' :: 'r' :: 'u' :: 'e' :: rest => some (.vBool true, rest)
    | 'f' :: 'a' :: 'l' :: 's' :: 'e' :: rest => some (.vBool false, rest)
    | '"' :: rest =>
      (jsonStringBody (rest.length + 1) rest).map fun p => (.vStr (String.mk p.1), p.2)
    | c :: rest =>
      if c = Char.ofNat 123 then
        match skipJsonWs rest with
        | c' :: rest' =>
          if c' = Char.ofNat 125 then some (.vObj .nil, rest')
          else (jsonMembersF fuel (c' :: rest')).map fun p => (.vObj p.1, p.2)
        | [] => none
      else if c = '[' then
        match skipJsonWs rest with
        | ']' :: rest' => some (.vArr .nil, rest')
        | cs' => (jsonElemsF fuel cs').map fun p => (.vArr p.1, p.2)
      else (jsonNumber (c :: rest)).map fun p => (.vNum (.fin p.1), p.2)
    | [] => none

/-- Parse a nonempty `key : value (, key : value)*` member list and the
closing `}`. -/
def jsonMembersF : Nat → List Char → Option (Fields × List Char)
  | 0, _ => none
  | fuel + 1, cs =>
    match skipJsonWs cs with
    | '"' :: rest =>
      match jsonStringBody (rest.length + 1) rest with
      | none => none
      | some (key, rest') =>
        match skipJsonWs rest' with
        | ':' :: rest'' =>
          match jsonValueF fuel rest'' with
          | none => none
          | some (v, rest''') =>
            match skipJsonWs rest''' with
            | ',' :: more =>
              (jsonMembersF fuel more).map fun p => (.cons (String.mk key) v p.1, p.2)
            | cc :: more =>
              if cc = Char.ofNat 125 then some (.cons (String.mk key) v .nil, more)
              else none
            | [] => none
        | _ => none
    | _ => none

/-- Parse a nonempty element list and the closing `]`. -/
def jsonElemsF : Nat → List Char → Option (Elems × List Char)
  | 0, _ => none
  | fuel + 1, cs =>
    match jsonValueF fuel cs with
    | none => none
    | some (v, rest) =>
      match skipJsonWs rest with
      | ',' :: more => (jsonElemsF fuel more).map fun p => (.cons v p.1, p.2)
      | ']' :: more => some (.cons v .nil, more)
      | _ => none

end

/-- `JSON.parse(s)`, with the exception modelled as `none`: trailing
non-whitespace input is rejected. -/
def jsParseJson (s : String) : Option Value :=
  match jsonValueF (s.length + 1) s.data with
  | some (v, rest) => if (skipJsonWs rest).isEmpty then some v else none
  | none => none

/-! ### Number and JSON rendering (used by the schema-forced casts) -/

/-- Largest `e` with `p ^ e` dividing `n`, with the cofactor (fuelled). -/
def stripP (p : Nat) : Nat → Nat → Nat × Nat
  | 0, n => (0, n)
  | fuel + 1, n =>
    if 1 < p && 0 < n && n % p = 0 then
      let (e, m) := stripP p fuel (n / p)
      (e + 1, m)
    else (0, n)

/-- Decimal rendering of a rational.  Exact when the denominator is a
product of 2s and 5s (every value a JS computation in this engine produces);
other denominators fall back to a fraction spelling, which no caster path
reaches. -/
def ratDecimalString (q : ℚ) : String :=
  let sgn := if q.num < 0 then "-" else ""
  let n := q.num.natAbs
  let d := q.den
  let (a, d2) := stripP 2 d d
  let (b, _) := stripP 5 d2 d2
  let k := max a b
  if 10 ^ k % d = 0 then
    let scaled := n * 10 ^ k / d
    if k = 0 then sgn ++ toString scaled
    else
      let whole := scaled / 10 ^ k
      let frac := scaled % 10 ^ k
      let fracDigits := toString frac
      let padded := String.mk (List.replicate (k - fracDigits.length) '0') ++ fracDigits
      let stripped := String.mk (padded.data.reverse.dropWhile (· = '0')).reverse
      if stripped.isEmpty then sgn ++ toString whole
      else sgn ++ toString whole ++ "." ++ stripped
  else sgn ++ toString n ++ "/" ++ toString d

/-- JavaScript `(num).toString()`. -/
def jsNumString : JNum → String
  | .fin q => ratDecimalString q
  | .posInf => "Infinity"
  | .negInf => "-Infinity"

/-- Left-pad a natural number's decimal form with zeros. -/
def padNat (width n : Nat) : String :=
  let s := toString n
  String.mk (List.replicate (width - s.length) '0') ++ s

/-- `Date.prototype.toISOString` (what `JSON.stringify` emits for dates). -/
def isoStringOfMs (ms : Int) : String :=
  let days := Int.ediv ms 86400000
  let rem := (Int.emod ms 86400000).toNat
  let (y, mo, dy) := civilFromDays days
  let hh := rem / 3600000
  let mi := rem % 3600000 / 60000
  let ss := rem % 60000 / 1000
  let msPart := rem % 1000
  let ys := if 0 ≤ y then padNat 4 y.toNat else "-" ++ padNat 6 (-y).toNat
  ys ++ "-" ++ padNat 2 mo ++ "-" ++ padNat 2 dy ++ "T" ++ padNat 2 hh ++ ":" ++
    padNat 2 mi ++ ":" ++ padNat 2 ss ++ "." ++ padNat 3 msPart ++ "Z"

/-- JSON string quoting. -/
def jsonQuote (s : String) : String :=
  let esc := s.data.foldr
    (fun c acc =>
      if c = '"' then '\\' :: '"' :: acc
      else if c = '\\' then '\\' :: '\\' :: acc
      else if c = '\n' then '\\' :: 'n' :: acc
      else if c = '\r' then '\\' :: 'r' :: acc
      else if c = '\t' then '\\' :: 't' :: acc
      else if c.toNat < 32 then
        '\\' :: 'u' :: '0' :: '0' ::
          (if c.toNat / 16 < 10 then Char.ofNat ('0'.toNat + c.toNat / 16)
           else Char.ofNat ('a'.toNat + c.toNat / 16 - 10)) ::
          (if c.toNat % 16 < 10 then Char.ofNat ('0'.toNat + c.toNat % 16)
           else Char.ofNat ('a'.toNat + c.toNat % 16 - 10)) :: acc
      else c :: acc)
    []
  "\x22" ++ String.mk esc ++ "\x22"

mutual

/-- `JSON.stringify` on a value. -/
def jsonStringifyV : Value → String
  | .vNull => "null"
  | .vBool true => "true"
  | .vBool false => "false"
  | .vNum n =>
    match n with
    | .fin q => ratDecimalString q
    | _ => "null"
  | .vStr s => jsonQuote s
  | .vDate d =>
    match d with
    | some ms => jsonQuote (isoStringOfMs ms)
    | none => "null"
  | .vObj fs => "\x7b" ++ jsonStringifyF fs ++ "\x7d"
  | .vArr es => "[" ++ jsonStringifyE es ++ "]"

/-- `JSON.stringify` member rendering. -/
def jsonStringifyF : Fields → String
  | .nil => ""
  | .cons k v .nil => jsonQuote k ++ ":" ++ jsonStringifyV v
  | .cons k v rest => jsonQuote k ++ ":" ++ jsonStringifyV v ++ "," ++ jsonStringifyF rest

/-- `JSON.stringify` element rendering. -/
def jsonStringifyE : Elems → String
  | .nil => ""
  | .cons v .nil => jsonStringifyV v
  | .cons v rest => jsonStringifyV v ++ "," ++ jsonStringifyE rest

end

/-! ### Records: property access -/

/-- First-occurrence association-list lookup (`obj[key]` / `key in obj`). -/
def alookup {α : Type} : List (String × α) → String → Option α
  | [], _ => none
  | (k, v) :: rest, key => if k = key then some v else alookup rest key

/-- Property read on a record. -/
def Fields.lookup : Fields → String → Option Value
  | .nil, _ => none
  | .cons k v rest, key => if k = key then some v else rest.lookup key

/-- `key in obj`. -/
def Fields.hasKey (fs : Fields) (k : String) : Bool := (fs.lookup k).isSome

/-- Property write `obj[key] = v`: an existing key keeps its position, a
new key is appended (JS insertion-order semantics). -/
def Fields.set : Fields → String → Value → Fields
  | .nil, key, v => .cons key v .nil
  | .cons k w rest, key, v =>
    if k = key then .cons k v rest else .cons k w (rest.set key v)

/-- The key list of a record, in iteration order. -/
def Fields.keys : Fields → List String
  | .nil => []
  | .cons k _ rest => k :: rest.keys

/-- `Object.assign(target, source)`: each source property is written onto
the target in source iteration order. -/
def Fields.assign : Fields → Fields → Fields
  | fs, .nil => fs
  | fs, .cons k v rest => (fs.set k v).assign rest

/-! ### Configuration (`TpsCasterOptions` and `Partial<TpsCasterOptions>`) -/

mutual

/-- A partial caster configuration (`Partial<TpsCasterOptions>`): a `none`
field was not provided by the caller.  `deepCasters` entries are themselves
partial configurations. -/
inductive POpts : Type where
  | mk
    (enableAll : Option Bool)
    (onlySchema : Option Bool)
    (rewriteFields : Option Bool)
    (stringsToNumbers : Option Bool)
    (numberMaxChars : Option Nat)
    (stringsToDates : Option Bool)
    (datesMatchRegex : Option (List (String → Bool)))
    (stringsToBooleans : Option Bool)
    (stringsToObjects : Option Bool)
    (schema : Option Schema)
    (deepCasters : Option DeepList)

/-- A `deepCasters` record: field names mapped to nested partial
configurations. -/
inductive DeepList : Type where
  | nil
  | cons (k : String) (p : POpts) (rest : DeepList)

end

/-- The all-absent partial configuration (calling `cast` with `{}`). -/
def POpts.empty : POpts := .mk none none none none none none none none none none none

def POpts.enableAll : POpts → Option Bool
  | .mk a _ _ _ _ _ _ _ _ _ _ => a

def POpts.onlySchema : POpts → Option Bool
  | .mk _ a _ _ _ _ _ _ _ _ _ => a

def POpts.rewriteFields : POpts → Option Bool
  | .mk _ _ a _ _ _ _ _ _ _ _ => a

def POpts.stringsToNumbers : POpts → Option Bool
  | .mk _ _ _ a _ _ _ _ _ _ _ => a

def POpts.numberMaxChars : POpts → Option Nat
  | .mk _ _ _ _ a _ _ _ _ _ _ => a

def POpts.stringsToDates : POpts → Option Bool
  | .mk _ _ _ _ _ a _ _ _ _ _ => a

def POpts.datesMatchRegex : POpts → Option (List (String → Bool))
  | .mk _ _ _ _ _ _ a _ _ _ _ => a

def POpts.stringsToBooleans : POpts → Option Bool
  | .mk _ _ _ _ _ _ _ a _ _ _ => a

def POpts.stringsToObjects : POpts → Option Bool
  | .mk _ _ _ _ _ _ _ _ a _ _ => a

def POpts.schema : POpts → Option Schema
  | .mk _ _ _ _ _ _ _ _ _ a _ => a

def POpts.deepCasters : POpts → Option DeepList
  | .mk _ _ _ _ _ _ _ _ _ _ a => a

/-- `deepCasters[key]` lookup. -/
def DeepList.lookup : DeepList → String → Option POpts
  | .nil, _ => none
  | .cons k p rest, key => if k = key then some p else rest.lookup key

/-- A fully resolved `TpsCasterOptions` instance (every field carries the
class initialiser's default unless the constructor overwrote it). -/
structure TpsCasterOptions where
  enableAll : Bool
  onlySchema : Bool
  rewriteFields : Bool
  stringsToNumbers : Bool
  numberMaxChars : Nat
  stringsToDates : Bool
  datesMatchRegex : List (String → Bool)
  stringsToBooleans : Bool
  stringsToObjects : Bool
  schema : Option Schema
  deepCasters : Option DeepList

/-- `TpsCasterOptions.datesMatchRegexDefault`: the single default pattern. -/
def datesMatchRegexDefault : List (String → Bool) := [regexDefaultTest]

/-- `TpsCasterOptions.enableAllApply(val?)`, transliterated from lines
283–289: with no argument (`val = none`) it returns immediately and changes
nothing; with an argument it sets the four heuristic toggles to it. -/
def TpsCasterOptions.enableAllApply (o : TpsCasterOptions) (val : Option Bool) : TpsCasterOptions :=
  match val with
  | none => o
  | some v =>
    { o with stringsToNumbers := v, stringsToDates := v, stringsToBooleans := v,
             stringsToObjects := v }

/-- `new TpsCasterOptions(options)` (lines 179–182): the class initialisers
supply defaults, `Object.assign(this, options)` overwrites the provided
fields, and then — when `options.enableAll` is truthy — the constructor
calls `enableAllApply()` with no argument. -/
def TpsCasterOptions.ofPartial (po : Option POpts) : TpsCasterOptions :=
  let dflt : TpsCasterOptions :=
    { enableAll := false, onlySchema := false, rewriteFields := false,
      stringsToNumbers := false, numberMaxChars := 8, stringsToDates := false,
      datesMatchRegex := datesMatchRegexDefault, stringsToBooleans := false,
      stringsToObjects := false, schema := none, deepCasters := none }
  match po with
  | none => dflt
  | some p =>
    let o : TpsCasterOptions :=
      { enableAll := (p.enableAll).getD false,
        onlySchema := (p.onlySchema).getD false,
        rewriteFields := (p.rewriteFields).getD false,
        stringsToNumbers := (p.stringsToNumbers).getD false,
        numberMaxChars := (p.numberMaxChars).getD 8,
        stringsToDates := (p.stringsToDates).getD false,
        datesMatchRegex := (p.datesMatchRegex).getD datesMatchRegexDefault,
        stringsToBooleans := (p.stringsToBooleans).getD false,
        stringsToObjects := (p.stringsToObjects).getD false,
        schema := p.schema,
        deepCasters := p.deepCasters }
    if o.enableAll then o.enableAllApply none else o

/-- The options value `cast` works with: the constructed instance after the
`opts.enableAllApply()` call at line 54 (which passes no argument). -/
def resolveOpts (po : Option POpts) : TpsCasterOptions :=
  (TpsCasterOptions.ofPartial po).enableAllApply none

/-- The schema gate (lines 62–65): a field is skipped when a schema object
is present and it either maps the key to `false`, or `onlySchema` is set
and the key is absent from the schema. -/
def schemaSkips (o : TpsCasterOptions) (key : String) : Bool :=
  match o.schema with
  | none => false
  | some sch =>
    alookup sch key == some (.b false) || (o.onlySchema && (alookup sch key).isNone)

/-! ### `_castFromString` (lines 140–170) -/

/-- Eligibility of the number branch (line 143): forced `number`, or the
toggle is on and the string is short enough. -/
def numEligible (val : String) (opts : Option TpsCasterOptions) (toType : Option SchemaTy) :
    Bool :=
  toType == some .num || (match opts with
    | some o => o.stringsToNumbers && decide (val.length ≤ o.numberMaxChars)
    | none => false)

/-- Eligibility of the date branch (line 150). -/
def dateEligible (val : String) (opts : Option TpsCasterOptions) (toType : Option SchemaTy) :
    Bool :=
  toType == some .date || (match opts with
    | some o => o.stringsToDates && decide (val.length ≤ 20)
    | none => false)

/-- The date pattern gate (lines 151–152): some configured pattern matches
the string (`opts?.datesMatchRegex || datesMatchRegexDefault`). -/
def dateGate (val : String) (opts : Option TpsCasterOptions) : Bool :=
  (match opts with
    | some o => o.datesMatchRegex
    | none => datesMatchRegexDefault).any fun rx => rx val

/-- Eligibility of the boolean branch (line 159). -/
def boolEligible (val : String) (opts : Option TpsCasterOptions) (toType : Option SchemaTy) :
    Bool :=
  toType == some .bool || (match opts with
    | some o => o.stringsToBooleans && decide (val.length ≤ 5)
    | none => false)

/-- Eligibility of the object branch (line 165). -/
def objEligible (opts : Option TpsCasterOptions) (toType : Option SchemaTy) : Bool :=
  toType == some .obj || (match opts with
    | some o => o.stringsToObjects
    | none => false)

/-- The number branch of `_castFromString` in isolation: eligibility plus
`Number(val)` with the NaN check. -/
def tryNumber (val : String) (opts : Option TpsCasterOptions) (toType : Option SchemaTy) :
    Option Value :=
  if numEligible val opts toType then (jsNumber val).map .vNum else none

/-- The date branch of `_castFromString` in isolation: eligibility, the
pattern gate, and `new Date(val)` with the validity check. -/
def tryDate (val : String) (opts : Option TpsCasterOptions) (toType : Option SchemaTy) :
    Option Value :=
  if dateEligible val opts toType then
    if dateGate val opts then (jsParseDate val).map (fun t => .vDate (some t)) else none
  else none

/-- The boolean branch of `_castFromString` in isolation. -/
def tryBoolean (val : String) (opts : Option TpsCasterOptions) (toType : Option SchemaTy) :
    Option Value :=
  if boolEligible val opts toType then (jsBoolLit val).map .vBool else none

/-- The object branch of `_castFromString` in isolation: `JSON.parse` with
its exception caught, succeeding only on a truthy object result. -/
def tryObject (val : String) (opts : Option TpsCasterOptions) (toType : Option SchemaTy) :
    Option Value :=
  if objEligible opts toType then
    match jsParseJson val with
    | some j => if truthy j && typeofObject j then some j else none
    | none => none
  else none

/-- `TpsCaster._castFromString` (lines 140–170), transliterated with the
source's early-return sequence: number, then date, then boolean, then
object. -/
def castFromString (val : String) (opts : Option TpsCasterOptions) (toType : Option SchemaTy) :
    Option Value :=
  match (if numEligible val opts toType then jsNumber val else none) with
  | some n => some (.vNum n)
  | none =>
    match (if dateEligible val opts toType then
        (if dateGate val opts then jsParseDate val else none)
      else none) with
    | some t => some (.vDate (some t))
    | none =>
      match (if boolEligible val opts toType then jsBoolLit val else none) with
      | some b => some (.vBool b)
      | none =>
        if objEligible opts toType then
          match jsParseJson val with
          | some j => if truthy j && typeofObject j then some j else none
          | none => none
        else none

/-- `TpsCaster._castSchemaField` (lines 113–130): schema-forced casting of
a value to a declared target type. -/
def castSchemaField (val : Value) (toType : SchemaTy) (opts : TpsCasterOptions) : Option Value :=
  match val with
  | .vStr s =>
    if toType ≠ .str then castFromString s (some opts) (some toType) else none
  | .vNum n =>
    if toType ≠ .num then
      match toType with
      | .bool => some (.vBool (jnumTruthy n))
      | .str => some (.vStr (jsNumString n))
      | .date => some (.vDate (jsDateOfNum n))
      | _ => none
    else none
  | .vBool _ => none
  | .vNull => if toType = .str then some (.vStr (jsonStringifyV .vNull)) else none
  | .vDate d => if toType = .str then some (.vStr (jsonStringifyV (.vDate d))) else none
  | .vObj fs => if toType = .str then some (.vStr (jsonStringifyV (.vObj fs))) else none
  | .vArr es => if toType = .str then some (.vStr (jsonStringifyV (.vArr es))) else none

/-! ### `TpsCaster.cast` (lines 50–98), with explicit state passing

`castPair v po = none` models the call throwing (the only reachable throw
is `Object.assign` onto a `null` target, line 96 with a `null` input);
`some (result, after)` gives the returned value and the post-call state of
the input value (`after ≠ input` only through in-place mutation). -/

/-- The deep-caster lookup for a key
(`opts.deepCasters && key in opts.deepCasters`, line 75). -/
def deepLookup (o : TpsCasterOptions) (k : String) : Option POpts :=
  match o.deepCasters with
  | some dc => dc.lookup k
  | none => none

/-- The string-heuristic outcome for one field value (lines 68–71): only a
nonempty string is offered to `_castFromString`. -/
def strHit (o : TpsCasterOptions) (v : Value) : Option Value :=
  match v with
  | .vStr s => if 0 < s.length then castFromString s (some o) none else none
  | _ => none

/-- Index keys `i, i+1, ...` for the elements of an array, as `for..in`
enumerates them. -/
def indexFields (i : Nat) : Elems → Fields
  | .nil => .nil
  | .cons v rest => .cons (toString i) v (indexFields (i + 1) rest)

/-- `Object.assign(arr, casted)` on an array target: element `i` is
replaced when `casted` holds key `toString i`. -/
def elemsAssign (i : Nat) : Elems → Fields → Elems
  | .nil, _ => .nil
  | .cons v rest, casted =>
    .cons ((casted.lookup (toString i)).getD v) (elemsAssign (i + 1) rest casted)

/-- First components of cast element pairs. -/
def elemsOfFst : List (Value × Value) → Elems
  | [] => .nil
  | p :: ps => .cons p.1 (elemsOfFst ps)

/-- Second components of cast element pairs. -/
def elemsOfSnd : List (Value × Value) → Elems
  | [] => .nil
  | p :: ps => .cons p.2 (elemsOfSnd ps)

mutual

/-- `TpsCaster.cast(obj, options?)`.  Mirrors the source line by line:
the non-object guard (51), options resolution (53–54), the field loop
(57–93) and result assembly (96–97). -/
def castPair : Value → Option POpts → Option (Value × Value)
  | .vStr s, _ => some (.vStr s, .vStr s)
  | .vNum n, _ => some (.vNum n, .vNum n)
  | .vBool b, _ => some (.vBool b, .vBool b)
  | .vNull, po =>
    -- `typeof null === 'object'`: the guard passes, the loop body never
    -- runs, and assembly either throws (`Object.assign(null, casted)`)
    -- or builds a fresh empty record.
    let o := resolveOpts po
    if o.rewriteFields then none
    else some (.vObj .nil, .vNull)
  | .vDate d, po =>
    -- a Date has no own enumerable properties: the loop body never runs
    let o := resolveOpts po
    if o.rewriteFields then some (.vDate d, .vDate d)
    else some (.vObj .nil, .vDate d)
  | .vObj fs, po =>
    let o := resolveOpts po
    match castFields o fs .nil with
    | none => none
    | some (casted, after) =>
      let res := Value.vObj (Fields.assign after casted)
      if o.rewriteFields then some (res, res) else some (res, .vObj after)
  | .vArr xs, po =>
    -- `typeof [] === 'object'`: the loop enumerates index keys; the copy
    -- branch builds a plain object from them, the mutate branch writes
    -- them back onto the array.
    let o := resolveOpts po
    match castIdx o 0 xs .nil with
    | none => none
    | some (casted, after) =>
      if o.rewriteFields then
        let res := Value.vArr (elemsAssign 0 after casted)
        some (res, res)
      else some (.vObj (Fields.assign (indexFields 0 after) casted), .vArr after)

/-- The `for(const key in obj)` loop over a record's fields, threading the
`casted` accumulator and collecting each field's post-call state. -/
def castFields (o : TpsCasterOptions) : Fields → Fields → Option (Fields × Fields)
  | .nil, casted => some (casted, .nil)
  | .cons k v rest, casted =>
    match castField o k v (casted.hasKey k) with
    | none => none
    | some (entry, vAfter) =>
      let casted' := match entry with
        | some cv => casted.set k cv
        | none => casted
      match castFields o rest casted' with
      | none => none
      | some (c'', after) => some (c'', .cons k vAfter after)

/-- The same loop over an array's index keys. -/
def castIdx (o : TpsCasterOptions) (i : Nat) : Elems → Fields → Option (Fields × Elems)
  | .nil, casted => some (casted, .nil)
  | .cons v rest, casted =>
    match castField o (toString i) v (casted.hasKey (toString i)) with
    | none => none
    | some (entry, vAfter) =>
      let casted' := match entry with
        | some cv => casted.set (toString i) cv
        | none => casted
      match castIdx o (i + 1) rest casted' with
      | none => none
      | some (c'', after) => some (c'', .cons vAfter after)

/-- One iteration of the field loop (lines 57–93) for key `k` holding `v`:
returns the `casted` entry this iteration produced (if any) and the
post-call state of `v`.  `kInCasted` is the `key in casted` test of line
86.  The deep-caster branch for a non-array object inlines `cast(val,
deepOpts)` — `castField_deepObj_eq_castPair` below checks the inlining
against `castPair`. -/
def castField (o : TpsCasterOptions) (k : String) (v : Value) (kInCasted : Bool) :
    Option (Option Value × Value) :=
  if !truthy v then some (none, v)
  else if schemaSkips o k then some (none, v)
  else
    match strHit o v with
    | some cv => some (some cv, v)
    | none =>
      match (if typeofObject v then deepLookup o k else none) with
      | some dp =>
        match v with
        | .vArr xs =>
          match castElems xs (some dp) with
          | none => none
          | some prs => some (some (.vArr (elemsOfFst prs)), .vArr (elemsOfSnd prs))
        | .vObj fs =>
          let o' := resolveOpts (some dp)
          match castFields o' fs .nil with
          | none => none
          | some (c', a') =>
            let res := Value.vObj (Fields.assign a' c')
            if o'.rewriteFields then some (some res, res)
            else some (some res, .vObj a')
        | .vDate d =>
          let o' := resolveOpts (some dp)
          if o'.rewriteFields then some (some (.vDate d), .vDate d)
          else some (some (.vObj .nil), .vDate d)
        | .vNull =>
          -- unreachable: `null` is falsy, so the loop skipped it already
          let o' := resolveOpts (some dp)
          if o'.rewriteFields then none
          else some (some (.vObj .nil), .vNull)
        | _ => none
      | none =>
        match o.schema with
        | some sch =>
          match alookup sch k with
          | some sv =>
            if kInCasted then some (none, v)
            else
              match sv with
              | .b _ => some (none, v)
              | .ty t =>
                match castSchemaField v t o with
                | some cv => some (some cv, v)
                | none => some (none, v)
          | none => some (none, v)
        | none => some (none, v)

/-- `val.map((v:any) => TpsCaster.cast(v, deepOpts))`, with each element's
result and post-call state. -/
def castElems : Elems → Option POpts → Option (List (Value × Value))
  | .nil, _ => some []
  | .cons x rest, po =>
    match castPair x po with
    | none => none
    | some pr =>
      match castElems rest po with
      | none => none
      | some prs => some (pr :: prs)

end

/-- `TpsCaster.cast`: the value the call returns. -/
def castV (v : Value) (po : Option POpts) : Option Value := (castPair v po).map Prod.fst

/-- The state of the input value after a `cast` call. -/
def castAfter (v : Value) (po : Option POpts) : Option Value := (castPair v po).map Prod.snd

/-! ### Record lemmas -/

/-- Single-motive structural induction for `Fields` (the mutual recursor
has several motives, which the `induction` tactic cannot use; none of the
record lemmas descend into the stored values). -/
@[induction_eliminator]
theorem Fields.inductionOnFields {motive : Fields → Prop} (nil : motive .nil)
    (cons : ∀ k v rest, motive rest → motive (.cons k v rest)) : ∀ fs, motive fs
  | .nil => nil
  | .cons k v rest => cons k v rest (Fields.inductionOnFields nil cons rest)

/-- Single-motive structural induction for `Elems`. -/
@[induction_eliminator]
theorem Elems.inductionOnElems {motive : Elems → Prop} (nil : motive .nil)
    (cons : ∀ v rest, motive rest → motive (.cons v rest)) : ∀ es, motive es
  | .nil => nil
  | .cons v rest => cons v rest (Elems.inductionOnElems nil cons rest)

theorem Fields.lookup_set_self (fs : Fields) (k : String) (v : Value) :
    (fs.set k v).lookup k = some v := by
  induction fs with
  | nil => simp [Fields.set, Fields.lookup]
  | cons k' w rest ih =>
    by_cases h : k' = k <;> simp [Fields.set, Fields.lookup, h, ih]

theorem Fields.lookup_set_ne (fs : Fields) (k k' : String) (v : Value) (h : k' ≠ k) :
    (fs.set k' v).lookup k = fs.lookup k := by
  induction fs with
  | nil => simp [Fields.set, Fields.lookup, h]
  | cons k'' w rest ih =>
    by_cases h2 : k'' = k' <;> by_cases h3 : k'' = k <;>
      simp_all [Fields.set, Fields.lookup]

theorem Fields.lookup_isSome_iff_mem_keys (fs : Fields) (k : String) :
    (fs.lookup k).isSome ↔ k ∈ fs.keys := by
  induction fs with
  | nil => simp [Fields.lookup, Fields.keys]
  | cons k' v rest ih =>
    by_cases h : k' = k <;> simp [Fields.lookup, Fields.keys, h, ih]
    exact fun h' => (h h'.symm).elim

theorem Fields.lookup_eq_none_of_not_mem (fs : Fields) (k : String) (h : k ∉ fs.keys) :
    fs.lookup k = none := by
  cases hl : fs.lookup k with
  | none => rfl
  | some v =>
    exact absurd ((Fields.lookup_isSome_iff_mem_keys fs k).mp (by simp [hl])) h

theorem Fields.keys_set_of_mem (fs : Fields) (k : String) (v : Value) (h : k ∈ fs.keys) :
    (fs.set k v).keys = fs.keys := by
  induction fs with
  | nil => simp [Fields.keys] at h
  | cons k' w rest ih =>
    by_cases h2 : k' = k
    · simp [Fields.set, h2, Fields.keys]
    · have hk : k ∈ rest.keys := by
        simp [Fields.keys] at h
        rcases h with h | h
        · exact absurd h.symm h2
        · exact h
      simp [Fields.set, h2, Fields.keys, ih hk]

theorem Fields.mem_keys_set (fs : Fields) (k k' : String) (v : Value)
    (h : k ∈ (fs.set k' v).keys) : k ∈ fs.keys ∨ k = k' := by
  induction fs with
  | nil => simp_all [Fields.set, Fields.keys]
  | cons k'' w rest ih =>
    by_cases h2 : k'' = k' <;> simp_all [Fields.set, Fields.keys]
    tauto


theorem Fields.keys_set_nodup (fs : Fields) (k : String) (v : Value)
    (h : fs.keys.Nodup) : (fs.set k v).keys.Nodup := by
  induction fs with
  | nil => simp [Fields.set, Fields.keys]
  | cons k' w rest ih =>
    by_cases h2 : k' = k
    · subst h2
      simpa [Fields.set, Fields.keys] using h
    · simp [Fields.keys, List.nodup_cons] at h
      simp only [Fields.set, h2, if_false, Fields.keys, List.nodup_cons]
      refine ⟨fun hm => ?_, ih h.2⟩
      rcases Fields.mem_keys_set rest k' k v hm with hmem | heq
      · exact h.1 hmem
      · exact h2 heq

theorem Fields.assign_nil (fs : Fields) : fs.assign .nil = fs := rfl

theorem Fields.lookup_assign (fs cs : Fields) (k : String) (h : cs.keys.Nodup) :
    (fs.assign cs).lookup k =
      match cs.lookup k with
      | some v => some v
      | none => fs.lookup k := by
  induction cs generalizing fs with
  | nil => simp [Fields.assign, Fields.lookup]
  | cons k' v rest ih =>
    simp [Fields.keys, List.nodup_cons] at h
    by_cases h2 : k' = k
    · subst h2
      have hrest : rest.lookup k' = none := Fields.lookup_eq_none_of_not_mem rest k' h.1
      simp only [Fields.assign]
      rw [ih (fs.set k' v) h.2]
      simp [Fields.lookup, hrest, Fields.lookup_set_self]
    · simp only [Fields.assign]
      rw [ih (fs.set k' v) h.2, Fields.lookup_set_ne fs k k' v h2]
      simp [Fields.lookup, h2]

theorem Fields.keys_assign (fs cs : Fields) (h : ∀ k, k ∈ cs.keys → k ∈ fs.keys) :
    (fs.assign cs).keys = fs.keys := by
  induction cs generalizing fs with
  | nil => simp [Fields.assign]
  | cons k' v rest ih =>
    simp [Fields.keys] at h
    have h1 : (fs.set k' v).keys = fs.keys := Fields.keys_set_of_mem fs k' v h.1
    have h2 : ∀ k, k ∈ rest.keys → k ∈ (fs.set k' v).keys := by
      intro k hk
      rw [h1]; exact h.2 k hk
    simpa [Fields.assign, h1] using ih (fs.set k' v) h2

/-! ### Field-pipeline lemmas -/

theorem castField_of_not_truthy (o : TpsCasterOptions) (k : String) (v : Value) (b : Bool)
    (h : truthy v = false) : castField o k v b = some (none, v) := by
  simp [castField, h]

theorem castField_of_schemaSkips (o : TpsCasterOptions) (k : String) (v : Value) (b : Bool)
    (h : schemaSkips o k = true) : castField o k v b = some (none, v) := by
  by_cases ht : truthy v <;> simp [castField, ht, h]

theorem strHit_of_not_truthy (o : TpsCasterOptions) (v : Value) (h : truthy v = false) :
    strHit o v = none := by
  cases v with
  | vStr s =>
    have hlen : ¬ 0 < s.length := by simpa [truthy] using h
    simp [strHit, hlen]
  | vNull => rfl
  | vNum n => rfl
  | vBool b => rfl
  | vDate d => rfl
  | vObj fs => rfl
  | vArr es => rfl

/-- With no schema and no deep casters the pipeline reduces to the string
heuristics alone, and never mutates the value. -/
theorem castField_no_schema_no_deep (o : TpsCasterOptions) (k : String) (v : Value) (b : Bool)
    (hs : o.schema = none) (hd : o.deepCasters = none) :
    castField o k v b = some (strHit o v, v) := by
  by_cases ht : truthy v
  · have hss : schemaSkips o k = false := by simp [schemaSkips, hs]
    cases hsh : strHit o v <;>
      simp [castField, ht, hss, hsh, deepLookup, hd, hs]
  · have ht' : truthy v = false := by simpa using ht
    rw [castField_of_not_truthy o k v b ht', strHit_of_not_truthy o v ht']

/-- The deep-caster branch for an array field: every element is cast with
the nested configuration; the `casted` entry is the fresh mapped array and
the field's own array keeps each element's post-call state. -/
theorem castField_deep_array (o : TpsCasterOptions) (k : String) (xs : Elems) (b : Bool)
    (dp : POpts) (prs : List (Value × Value))
    (hss : schemaSkips o k = false)
    (hdl : deepLookup o k = some dp)
    (hel : castElems xs (some dp) = some prs) :
    castField o k (.vArr xs) b =
      some (some (.vArr (elemsOfFst prs)), .vArr (elemsOfSnd prs)) := by
  simp [castField, truthy, hss, strHit, typeofObject, hdl, hel]

/-- The deep-caster branch for a plain-object field inlines `cast(val,
deepOpts)`; this checks the inlining against `castPair` itself. -/
theorem castField_deepObj_eq_castPair (o : TpsCasterOptions) (k : String) (fs : Fields)
    (b : Bool) (dp : POpts)
    (hss : schemaSkips o k = false) (hdl : deepLookup o k = some dp) :
    castField o k (.vObj fs) b =
      (castPair (.vObj fs) (some dp)).map (fun pr => (some pr.1, pr.2)) := by
  simp only [castField, truthy, Bool.not_true, Bool.false_eq_true, if_false, hss,
    strHit, typeofObject, hdl, castPair]
  cases hcf : castFields (resolveOpts (some dp)) fs .nil with
  | none => simp [hcf]
  | some pr =>
    obtain ⟨c, a⟩ := pr
    by_cases hrw : (resolveOpts (some dp)).rewriteFields <;> simp [hcf, hrw]

/-! ### Field-loop (fold) lemmas -/

/-- Inversion of one step of the field loop. -/
theorem castFields_cons_inv (o : TpsCasterOptions) (k : String) (v : Value) (rest : Fields)
    (c c' a : Fields) (h : castFields o (.cons k v rest) c = some (c', a)) :
    ∃ entry w after,
      castField o k v (c.hasKey k) = some (entry, w) ∧
      castFields o rest (match entry with | some cv => c.set k cv | none => c) =
        some (c', after) ∧
      a = .cons k w after := by
  simp only [castFields] at h
  cases hcf : castField o k v (c.hasKey k) with
  | none => rw [hcf] at h; exact absurd h (by simp)
  | some pr =>
    obtain ⟨entry, w⟩ := pr
    rw [hcf] at h
    cases entry with
    | none =>
      dsimp only at h
      cases hrec : castFields o rest c with
      | none => rw [hrec] at h; exact absurd h (by simp)
      | some pr2 =>
        obtain ⟨c'', after⟩ := pr2
        rw [hrec] at h
        simp only [Option.some.injEq, Prod.mk.injEq] at h
        refine ⟨none, w, after, rfl, ?_, h.2.symm⟩
        dsimp only
        rw [← h.1]
        exact hrec
    | some cv =>
      dsimp only at h
      cases hrec : castFields o rest (c.set k cv) with
      | none => rw [hrec] at h; exact absurd h (by simp)
      | some pr2 =>
        obtain ⟨c'', after⟩ := pr2
        rw [hrec] at h
        simp only [Option.some.injEq, Prod.mk.injEq] at h
        refine ⟨some cv, w, after, rfl, ?_, h.2.symm⟩
        dsimp only
        rw [← h.1]
        exact hrec

/-- The field loop returns one post-state per input field, keys unchanged. -/
theorem castFields_after_keys (o : TpsCasterOptions) (fs : Fields) :
    ∀ c c' a, castFields o fs c = some (c', a) → a.keys = fs.keys := by
  induction fs with
  | nil =>
    intro c c' a h
    simp only [castFields, Option.some.injEq, Prod.mk.injEq] at h
    rw [← h.2]
  | cons k v rest ih =>
    intro c c' a h
    obtain ⟨entry, w, after, _, hrec, ha⟩ := castFields_cons_inv o k v rest c c' a h
    subst ha
    simp [Fields.keys, ih _ _ _ hrec]

/-- Keys the loop never visits keep their `casted` status. -/
theorem castFields_untouched (o : TpsCasterOptions) (fs : Fields) :
    ∀ c c' a k, k ∉ fs.keys → castFields o fs c = some (c', a) →
      c'.lookup k = c.lookup k := by
  induction fs with
  | nil =>
    intro c c' a k _ h
    simp only [castFields, Option.some.injEq, Prod.mk.injEq] at h
    rw [← h.1]
  | cons k' v rest ih =>
    intro c c' a k hk h
    simp [Fields.keys] at hk
    obtain ⟨entry, w, after, _, hrec, _⟩ := castFields_cons_inv o k' v rest c c' a h
    have := ih _ _ _ k hk.2 hrec
    rw [this]
    cases entry with
    | none => rfl
    | some cv => exact Fields.lookup_set_ne c k k' cv (fun he => hk.1 he.symm)

/-- Every `casted` key was already present or belongs to the input. -/
theorem castFields_casted_keys (o : TpsCasterOptions) (fs : Fields) :
    ∀ c c' a k, castFields o fs c = some (c', a) → k ∈ c'.keys →
      k ∈ c.keys ∨ k ∈ fs.keys := by
  induction fs with
  | nil =>
    intro c c' a k h hk
    simp only [castFields, Option.some.injEq, Prod.mk.injEq] at h
    exact Or.inl (h.1 ▸ hk)
  | cons k' v rest ih =>
    intro c c' a k h hk
    obtain ⟨entry, w, after, _, hrec, _⟩ := castFields_cons_inv o k' v rest c c' a h
    rcases ih _ _ _ k hrec hk with hc | hr
    · cases entry with
      | none => exact Or.inl hc
      | some cv =>
        rcases Fields.mem_keys_set c k k' cv hc with hc2 | he
        · exact Or.inl hc2
        · exact Or.inr (by simp [Fields.keys, he])
    · exact Or.inr (by simp [Fields.keys, hr])

/-- The loop keeps the `casted` accumulator's keys unique. -/
theorem castFields_casted_nodup (o : TpsCasterOptions) (fs : Fields) :
    ∀ c c' a, c.keys.Nodup → castFields o fs c = some (c', a) → c'.keys.Nodup := by
  induction fs with
  | nil =>
    intro c c' a hn h
    simp only [castFields, Option.some.injEq, Prod.mk.injEq] at h
    exact h.1 ▸ hn
  | cons k v rest ih =>
    intro c c' a hn h
    obtain ⟨entry, w, after, _, hrec, _⟩ := castFields_cons_inv o k v rest c c' a h
    cases entry with
    | none => exact ih _ _ _ hn hrec
    | some cv => exact ih _ _ _ (Fields.keys_set_nodup c k cv hn) hrec

/-- What the loop does at the unique occurrence of a key: runs the pipeline
on its value (with a clean `key in casted` test), records the produced
entry, and reports the value's post-state. -/
theorem castFields_at_key (o : TpsCasterOptions) (fs : Fields) :
    ∀ c c' a k v, fs.keys.Nodup → fs.lookup k = some v → c.lookup k = none →
      castFields o fs c = some (c', a) →
      ∃ entry w, castField o k v false = some (entry, w) ∧
        c'.lookup k = entry ∧ a.lookup k = some w := by
  induction fs with
  | nil =>
    intro c c' a k v _ hl _ _
    simp [Fields.lookup] at hl
  | cons k' v' rest ih =>
    intro c c' a k v hn hl hc h
    simp [Fields.keys, List.nodup_cons] at hn
    obtain ⟨entry, w, after, hcf, hrec, ha⟩ := castFields_cons_inv o k' v' rest c c' a h
    by_cases hk : k' = k
    · subst hk
      simp [Fields.lookup] at hl
      subst hl
      have hb : c.hasKey k' = false := by simp [Fields.hasKey, hc]
      rw [hb] at hcf
      have hrk : k' ∉ rest.keys := hn.1
      have hcu : c'.lookup k' =
          (match entry with | some cv => c.set k' cv | none => c).lookup k' :=
        castFields_untouched o rest _ c' after k' hrk hrec
      refine ⟨entry, w, hcf, ?_, ?_⟩
      · rw [hcu]
        cases entry with
        | none => exact hc
        | some cv => exact Fields.lookup_set_self c k' cv
      · subst ha
        simp [Fields.lookup]
    · simp only [Fields.lookup, if_neg hk] at hl
      have hc1 : (match entry with | some cv => c.set k' cv | none => c).lookup k = none := by
        cases entry with
        | none => exact hc
        | some cv => rw [Fields.lookup_set_ne c k k' cv hk]; exact hc
      obtain ⟨e2, w2, hcf2, hc2, ha2⟩ := ih _ _ _ k v hn.2 hl hc1 hrec
      refine ⟨e2, w2, hcf2, hc2, ?_⟩
      subst ha
      simp [Fields.lookup, hk, ha2]

/-! ### `cast` on records: result characterisation -/

/-- Inversion of `castPair` on a record input. -/
theorem castPair_vObj_inv (fs : Fields) (po : Option POpts) (pr : Value × Value)
    (h : castPair (.vObj fs) po = some pr) :
    ∃ c a, castFields (resolveOpts po) fs .nil = some (c, a) ∧
      pr.1 = .vObj (a.assign c) ∧
      pr.2 = (if (resolveOpts po).rewriteFields then Value.vObj (a.assign c) else .vObj a) := by
  simp only [castPair] at h
  cases hcf : castFields (resolveOpts po) fs .nil with
  | none => rw [hcf] at h; exact absurd h (by simp)
  | some p =>
    obtain ⟨c, a⟩ := p
    rw [hcf] at h
    by_cases hrw : (resolveOpts po).rewriteFields <;>
      simp only [hrw, if_true, if_false, Bool.false_eq_true, Option.some.injEq] at h <;>
      exact ⟨c, a, rfl, by simp [← h, hrw]⟩

/-- Master lemma: with unique keys, the returned record's value at a key is
determined by that field's single pipeline run — the produced entry if any,
else the field's post-call state. -/
theorem castV_vObj_lookup (fs : Fields) (po : Option POpts) (rr : Fields) (k : String)
    (v : Value) (entry : Option Value) (w : Value)
    (hn : fs.keys.Nodup)
    (hl : fs.lookup k = some v)
    (hcf : castField (resolveOpts po) k v false = some (entry, w))
    (hres : castV (.vObj fs) po = some (.vObj rr)) :
    rr.lookup k = (match entry with | some cv => some cv | none => some w) := by
  obtain ⟨pr, hpr, hfst⟩ : ∃ pr, castPair (.vObj fs) po = some pr ∧ pr.1 = .vObj rr := by
    cases hcp : castPair (.vObj fs) po with
    | none => simp [castV, hcp] at hres
    | some pr => exact ⟨pr, rfl, by simpa [castV, hcp] using hres⟩
  obtain ⟨c, a, hcfs, h1, _⟩ := castPair_vObj_inv fs po pr hpr
  have hrr : rr = a.assign c := by
    have h2 : Value.vObj rr = Value.vObj (a.assign c) := hfst.symm.trans h1
    injection h2
  obtain ⟨entry', w', hcf', hc, ha⟩ :=
    castFields_at_key (resolveOpts po) fs .nil c a k v hn hl rfl hcfs
  have heq : entry = entry' ∧ w = w' := by
    have h3 := hcf.symm.trans hcf'
    injection h3 with h4
    exact ⟨congrArg Prod.fst h4, congrArg Prod.snd h4⟩
  have hcnodup : c.keys.Nodup :=
    castFields_casted_nodup (resolveOpts po) fs .nil c a (by simp [Fields.keys]) hcfs
  rw [hrr, Fields.lookup_assign a c k hcnodup]
  rw [← heq.1] at hc
  cases entry with
  | some cv => simp [hc]
  | none =>
    simp only [hc]
    rw [ha, heq.2]

/-- Elementwise `cast` over an array value (the result side of
`val.map((v) => TpsCaster.cast(v, deepOpts))`). -/
def castAllElems (xs : Elems) (po : Option POpts) : Option Elems :=
  match xs with
  | .nil => some .nil
  | .cons x rest =>
    match castV x po, castAllElems rest po with
    | some r, some rs => some (.cons r rs)
    | _, _ => none

theorem castAllElems_eq_castElems (xs : Elems) (po : Option POpts) (ys : Elems)
    (h : castAllElems xs po = some ys) :
    ∃ prs, castElems xs po = some prs ∧ ys = elemsOfFst prs := by
  induction xs generalizing ys with
  | nil =>
    refine ⟨[], rfl, ?_⟩
    simp only [castAllElems, Option.some.injEq] at h
    rw [← h]; rfl
  | cons x rest ih =>
    simp only [castAllElems] at h
    cases hcv : castV x po with
    | none => rw [hcv] at h; exact absurd h (by simp)
    | some r =>
      rw [hcv] at h
      cases hall : castAllElems rest po with
      | none => rw [hall] at h; exact absurd h (by simp)
      | some rs =>
        rw [hall] at h
        simp only [Option.some.injEq] at h
        obtain ⟨prs, hel, hys⟩ := ih rs hall
        obtain ⟨pr, hpr, hfst⟩ : ∃ pr, castPair x po = some pr ∧ pr.1 = r := by
          cases hcp : castPair x po with
          | none => simp [castV, hcp] at hcv
          | some pr => exact ⟨pr, rfl, by simpa [castV, hcp] using hcv⟩
        refine ⟨pr :: prs, ?_, ?_⟩
        · simp [castElems, hpr, hel]
        · rw [← h, hys, elemsOfFst, hfst]

/-! ### Concrete configurations and records used by the claim instances -/

/-- `{enableAll: true}`. -/
def pEnableAll : POpts := .mk (some true) none none none none none none none none none none

/-- All four heuristic toggles set directly
(`{stringsToNumbers:true, stringsToDates:true, stringsToBooleans:true,
stringsToObjects:true}`). -/
def pAllHeuristics : POpts :=
  .mk none none none (some true) none (some true) none (some true) (some true) none none

/-- `{stringsToNumbers: true}`. -/
def pNumbersOn : POpts := .mk none none none (some true) none none none none none none none

/-- The documentation example record
`{id:'123', price:'123.45', date:'2021-01-01', is_active:'true',
data:'{"key":"value"}'}`. -/
def exampleRecord : Fields :=
  .cons "id" (.vStr "123") (.cons "price" (.vStr "123.45")
    (.cons "date" (.vStr "2021-01-01") (.cons "is_active" (.vStr "true")
      (.cons "data" (.vStr "\x7b\"key\":\"value\"\x7d") .nil))))

/-! ### Claim C1 -/

/-- C1 (code bug): the options resolution performed for every `cast` call
does **not** force the heuristic toggles when `enableAll` is true.
`enableAllApply` starts with `if(val === undefined) return;` and both of its
call sites — the constructor (line 181) and `cast` (line 54) — invoke it
with no argument, so it always returns immediately.  With `{enableAll:
true}` alone, all four toggles stay `false` and `cast` leaves the
documentation example's `id` field as the string `'123'`; the same
`enableAllApply`, given an actual argument, would have set the toggles. -/
theorem enableAll_has_no_effect :
    (resolveOpts (some pEnableAll)).stringsToNumbers = false ∧
    (resolveOpts (some pEnableAll)).stringsToDates = false ∧
    (resolveOpts (some pEnableAll)).stringsToBooleans = false ∧
    (resolveOpts (some pEnableAll)).stringsToObjects = false ∧
    castV (.vObj (.cons "id" (.vStr "123") .nil)) (some pEnableAll) =
      some (.vObj (.cons "id" (.vStr "123") .nil)) ∧
    ((TpsCasterOptions.ofPartial (some pEnableAll)).enableAllApply
      (some true)).stringsToNumbers = true := by
  refine ⟨rfl, rfl, rfl, rfl, by decide, rfl⟩

/-! ### Claim C2 -/

/-- C2: the documentation example record, cast with all four heuristics
enabled, yields `id` and `price` as numbers, `date` as the valid Date for
2021-01-01 (UTC timestamp 1609459200000 ms), `is_active` as the boolean
`true`, and `data` as the parsed object `{key:'value'}`. -/
theorem cast_example_record_all_heuristics :
    castV (.vObj exampleRecord) (some pAllHeuristics) =
      some (.vObj (.cons "id" (.vNum (.fin 123)) (.cons "price" (.vNum (.fin (mkRat 12345 100)))
        (.cons "date" (.vDate (some 1609459200000)) (.cons "is_active" (.vBool true)
          (.cons "data" (.vObj (.cons "key" (.vStr "value") .nil)) .nil)))))) := by
  decide

/-! ### Claim C4 -/

/-- C4 counterexample: with `onlySchema: true` but **no schema at all**, a
field — necessarily absent from the (missing) schema — is still coerced,
because the schema gate (line 62) first requires `opts.schema` to be
truthy.  `{id:'123'}` with `{onlySchema:true, stringsToNumbers:true}`
returns `id` as the number `123`, not unchanged. -/
theorem onlySchema_without_schema_still_coerces :
    (resolveOpts (some (POpts.mk none (some true) none (some true) none none none none none
      none none))).onlySchema = true ∧
    castV (.vObj (.cons "id" (.vStr "123") .nil))
      (some (.mk none (some true) none (some true) none none none none none none none)) =
      some (.vObj (.cons "id" (.vNum (.fin 123)) .nil)) ∧
    Value.vNum (.fin 123) ≠ Value.vStr "123" := by
  refine ⟨rfl, by decide, by simp⟩

/-- C4 (amended): when `onlySchema` is true **and a schema object is
provided**, every field absent from the schema is returned with its value
unchanged, regardless of the heuristic toggles. -/
theorem onlySchema_with_schema_passes_unknown_fields (fs : Fields) (po : Option POpts)
    (sch : Schema) (k : String) (v : Value) (rr : Fields)
    (hn : fs.keys.Nodup)
    (hsch : (resolveOpts po).schema = some sch)
    (honly : (resolveOpts po).onlySchema = true)
    (habs : alookup sch k = none)
    (hl : fs.lookup k = some v)
    (hres : castV (.vObj fs) po = some (.vObj rr)) :
    rr.lookup k = some v := by
  have hskip : schemaSkips (resolveOpts po) k = true := by
    simp [schemaSkips, hsch, habs, honly]
  have hcf := castField_of_schemaSkips (resolveOpts po) k v false hskip
  simpa using castV_vObj_lookup fs po rr k v none v hn hl hcf hres

/-- Closed instance of `onlySchema_with_schema_passes_unknown_fields`:
`{id:'123'}` with `{onlySchema:true, stringsToNumbers:true, schema:
{other:true}}` keeps `id` as `'123'`. -/
theorem onlySchema_with_schema_passes_unknown_fields_witness :
    (Fields.cons "id" (.vStr "123") .nil).keys.Nodup ∧
    ∃ rr, castV (.vObj (.cons "id" (.vStr "123") .nil))
        (some (.mk none (some true) none (some true) none none none none none
          (some [("other", .b true)]) none)) = some (.vObj rr) ∧
      rr.lookup "id" = some (.vStr "123") := by
  refine ⟨by decide, .cons "id" (.vStr "123") .nil, by decide, ?_⟩
  exact onlySchema_with_schema_passes_unknown_fields
    (.cons "id" (.vStr "123") .nil)
    (some (.mk none (some true) none (some true) none none none none none
      (some [("other", .b true)]) none))
    [("other", .b true)] "id" (.vStr "123") (.cons "id" (.vStr "123") .nil)
    (by decide) rfl rfl rfl rfl (by decide)

/-! ### Claim C5 -/

/-- C5: a field that the schema maps to the boolean `false` is returned
unchanged, whatever the heuristic toggles and whatever a schema-forced cast
would otherwise do (the gate at line 62 fires before both). -/
theorem schema_false_field_unchanged (fs : Fields) (po : Option POpts)
    (sch : Schema) (k : String) (v : Value) (rr : Fields)
    (hn : fs.keys.Nodup)
    (hsch : (resolveOpts po).schema = some sch)
    (hfalse : alookup sch k = some (.b false))
    (hl : fs.lookup k = some v)
    (hres : castV (.vObj fs) po = some (.vObj rr)) :
    rr.lookup k = some v := by
  have hskip : schemaSkips (resolveOpts po) k = true := by
    simp [schemaSkips, hsch, hfalse]
  have hcf := castField_of_schemaSkips (resolveOpts po) k v false hskip
  simpa using castV_vObj_lookup fs po rr k v none v hn hl hcf hres

/-- Closed instance of `schema_false_field_unchanged`: `{note:'hello'}`
with schema `{note:false}` and the numbers toggle on keeps `note` as the
string `'hello'`. -/
theorem schema_false_field_unchanged_witness :
    ∃ rr, castV (.vObj (.cons "note" (.vStr "hello") .nil))
        (some (.mk none none none (some true) none none none none none
          (some [("note", .b false)]) none)) = some (.vObj rr) ∧
      rr.lookup "note" = some (.vStr "hello") := by
  refine ⟨.cons "note" (.vStr "hello") .nil, by decide, ?_⟩
  exact schema_false_field_unchanged
    (.cons "note" (.vStr "hello") .nil)
    (some (.mk none none none (some true) none none none none none
      (some [("note", .b false)]) none))
    [("note", .b false)] "note" (.vStr "hello") (.cons "note" (.vStr "hello") .nil)
    (by decide) rfl rfl rfl (by decide)

/-! ### Claim C7 -/

/-- C7: a field holding an array, with a nested configuration registered
for that field name in `deepCasters`, is replaced by the array of its
elements each cast individually under the nested configuration (provided
the schema gate of line 62 does not skip the field, which claims C4/C5
describe as winning over everything else). -/
theorem deep_cast_array_elementwise (fs : Fields) (po : Option POpts) (k : String)
    (xs ys : Elems) (dp : POpts) (rr : Fields)
    (hn : fs.keys.Nodup)
    (hss : schemaSkips (resolveOpts po) k = false)
    (hdl : deepLookup (resolveOpts po) k = some dp)
    (hl : fs.lookup k = some (.vArr xs))
    (hys : castAllElems xs (some dp) = some ys)
    (hres : castV (.vObj fs) po = some (.vObj rr)) :
    rr.lookup k = some (.vArr ys) := by
  obtain ⟨prs, hel, hfst⟩ := castAllElems_eq_castElems xs (some dp) ys hys
  have hcf := castField_deep_array (resolveOpts po) k xs false dp prs hss hdl hel
  have := castV_vObj_lookup fs po rr k (.vArr xs)
    (some (.vArr (elemsOfFst prs))) (.vArr (elemsOfSnd prs)) hn hl hcf hres
  simpa [hfst] using this

/-- Closed instance of `deep_cast_array_elementwise`: the spec's
`{prices:[{price:'123.45'},{price:'234.56'}]}` example with
`deepCasters:{prices:{stringsToNumbers:true}}`. -/
theorem deep_cast_array_elementwise_witness :
    ∃ rr, castV (.vObj (.cons "prices" (.vArr (.cons (.vObj (.cons "price" (.vStr "123.45") .nil))
        (.cons (.vObj (.cons "price" (.vStr "234.56") .nil)) .nil))) .nil))
        (some (.mk none none none none none none none none none none
          (some (.cons "prices" pNumbersOn .nil)))) = some (.vObj rr) ∧
      rr.lookup "prices" = some (.vArr (.cons (.vObj (.cons "price" (.vNum (.fin (mkRat 12345 100))) .nil))
        (.cons (.vObj (.cons "price" (.vNum (.fin (mkRat 23456 100))) .nil)) .nil))) := by
  refine ⟨.cons "prices" (.vArr (.cons (.vObj (.cons "price" (.vNum (.fin (mkRat 12345 100))) .nil))
    (.cons (.vObj (.cons "price" (.vNum (.fin (mkRat 23456 100))) .nil)) .nil))) .nil, by decide, ?_⟩
  exact deep_cast_array_elementwise
    (.cons "prices" (.vArr (.cons (.vObj (.cons "price" (.vStr "123.45") .nil))
      (.cons (.vObj (.cons "price" (.vStr "234.56") .nil)) .nil))) .nil)
    (some (.mk none none none none none none none none none none
      (some (.cons "prices" pNumbersOn .nil))))
    "prices"
    (.cons (.vObj (.cons "price" (.vStr "123.45") .nil))
      (.cons (.vObj (.cons "price" (.vStr "234.56") .nil)) .nil))
    (.cons (.vObj (.cons "price" (.vNum (.fin (mkRat 12345 100))) .nil))
      (.cons (.vObj (.cons "price" (.vNum (.fin (mkRat 23456 100))) .nil)) .nil))
    pNumbersOn
    (.cons "prices" (.vArr (.cons (.vObj (.cons "price" (.vNum (.fin (mkRat 12345 100))) .nil))
      (.cons (.vObj (.cons "price" (.vNum (.fin (mkRat 23456 100))) .nil)) .nil))) .nil)
    (by decide) rfl rfl rfl (by decide) (by decide)

/-! ### Claim C10 -/

/-- C10: for the input `null` with any configuration whose `rewriteFields`
flag resolves to false (in particular when it is absent), `cast` returns a
newly built empty record rather than `null`: `typeof null === 'object'`
passes the guard, the `for..in` loop iterates zero times, and the copy
branch `Object.assign({}, null, {})` assembles a fresh empty object. -/
theorem cast_null_returns_empty_record (po : Option POpts)
    (h : (resolveOpts po).rewriteFields = false) :
    castV .vNull po = some (.vObj .nil) := by
  simp [castV, castPair, h]

/-- Closed instance of `cast_null_returns_empty_record` at the empty
partial configuration. -/
theorem cast_null_returns_empty_record_witness :
    (resolveOpts (some POpts.empty)).rewriteFields = false ∧
    castV .vNull (some POpts.empty) = some (.vObj .nil) :=
  ⟨rfl, cast_null_returns_empty_record (some POpts.empty) rfl⟩

/-! ### Claim C6 -/

/-- C6: the string heuristics are attempted in the fixed priority order
number, date, boolean, object: `_castFromString` equals the first-success
chain of its four isolated branches, so the first branch that is both
eligible (enabled or forced) and parses successfully determines the result
and no later branch is attempted — in particular a string eligible for both
the number and the boolean branch that parses as a number is decided by the
number branch. -/
theorem castFromString_priority_chain (val : String) (opts : Option TpsCasterOptions)
    (toType : Option SchemaTy) :
    castFromString val opts toType =
      ((tryNumber val opts toType).orElse fun _ =>
        ((tryDate val opts toType).orElse fun _ =>
          ((tryBoolean val opts toType).orElse fun _ => tryObject val opts toType))) := by
  unfold castFromString tryNumber tryDate tryBoolean tryObject
  cases numEligible val opts toType <;>
    cases dateEligible val opts toType <;>
    cases dateGate val opts <;>
    cases boolEligible val opts toType <;>
    cases jsNumber val <;>
    cases jsParseDate val <;>
    cases jsBoolLit val <;>
    simp [Option.orElse]

/-! ### Claim C3 -/

mutual

/-- No `null` occurs anywhere in the value (fields and array elements
included). -/
def nullFreeV : Value → Bool
  | .vNull => false
  | .vObj fs => nullFreeF fs
  | .vArr es => nullFreeE es
  | _ => true

/-- No `null` occurs among the record's field values, deeply. -/
def nullFreeF : Fields → Bool
  | .nil => true
  | .cons _ v rest => nullFreeV v && nullFreeF rest

/-- No `null` occurs among the array's elements, deeply. -/
def nullFreeE : Elems → Bool
  | .nil => true
  | .cons v rest => nullFreeV v && nullFreeE rest

end

/-- The pipeline never throws on a value that is not object-typed: every
branch it can reach ends in a `some`. -/
theorem castField_total_scalar (o : TpsCasterOptions) (k : String) (v : Value) (b : Bool)
    (hobj : typeofObject v = false) : (castField o k v b).isSome := by
  unfold castField
  simp only [hobj]
  repeat' split
  all_goals simp_all

mutual

theorem castPair_total : ∀ (v : Value) (po : Option POpts),
    nullFreeV v = true → (castPair v po).isSome
  | .vNull, _, h => by simp [nullFreeV] at h
  | .vStr s, po, _ => by simp [castPair]
  | .vNum n, po, _ => by simp [castPair]
  | .vBool b, po, _ => by simp [castPair]
  | .vDate d, po, _ => by
    by_cases hrw : (resolveOpts po).rewriteFields <;> simp [castPair, hrw]
  | .vObj fs, po, h => by
    have hf := castFields_total (resolveOpts po) fs .nil (by simpa [nullFreeV] using h)
    obtain ⟨pr, hpr⟩ := Option.isSome_iff_exists.mp hf
    obtain ⟨c, a⟩ := pr
    by_cases hrw : (resolveOpts po).rewriteFields <;> simp [castPair, hpr, hrw]
  | .vArr xs, po, h => by
    have hf := castIdx_total (resolveOpts po) 0 xs .nil (by simpa [nullFreeV] using h)
    obtain ⟨pr, hpr⟩ := Option.isSome_iff_exists.mp hf
    obtain ⟨c, a⟩ := pr
    by_cases hrw : (resolveOpts po).rewriteFields <;> simp [castPair, hpr, hrw]

theorem castFields_total : ∀ (o : TpsCasterOptions) (fs : Fields) (c : Fields),
    nullFreeF fs = true → (castFields o fs c).isSome
  | o, .nil, c, _ => by simp [castFields]
  | o, .cons k v rest, c, h => by
    have h1 : nullFreeV v = true ∧ nullFreeF rest = true := by
      simpa [nullFreeF, Bool.and_eq_true] using h
    have hv := castField_total o k v (c.hasKey k) h1.1
    obtain ⟨⟨entry, w⟩, hcf⟩ := Option.isSome_iff_exists.mp hv
    cases entry with
    | none =>
      have hr := castFields_total o rest c h1.2
      obtain ⟨pr2, hpr2⟩ := Option.isSome_iff_exists.mp hr
      obtain ⟨c'', a''⟩ := pr2
      simp [castFields, hcf, hpr2]
    | some cv =>
      have hr := castFields_total o rest (c.set k cv) h1.2
      obtain ⟨pr2, hpr2⟩ := Option.isSome_iff_exists.mp hr
      obtain ⟨c'', a''⟩ := pr2
      simp [castFields, hcf, hpr2]

theorem castIdx_total : ∀ (o : TpsCasterOptions) (i : Nat) (es : Elems) (c : Fields),
    nullFreeE es = true → (castIdx o i es c).isSome
  | o, i, .nil, c, _ => by simp [castIdx]
  | o, i, .cons v rest, c, h => by
    have h1 : nullFreeV v = true ∧ nullFreeE rest = true := by
      simpa [nullFreeE, Bool.and_eq_true] using h
    have hv := castField_total o (toString i) v (c.hasKey (toString i)) h1.1
    obtain ⟨⟨entry, w⟩, hcf⟩ := Option.isSome_iff_exists.mp hv
    cases entry with
    | none =>
      have hr := castIdx_total o (i + 1) rest c h1.2
      obtain ⟨pr2, hpr2⟩ := Option.isSome_iff_exists.mp hr
      obtain ⟨c'', a''⟩ := pr2
      simp [castIdx, hcf, hpr2]
    | some cv =>
      have hr := castIdx_total o (i + 1) rest (c.set (toString i) cv) h1.2
      obtain ⟨pr2, hpr2⟩ := Option.isSome_iff_exists.mp hr
      obtain ⟨c'', a''⟩ := pr2
      simp [castIdx, hcf, hpr2]

theorem castField_total : ∀ (o : TpsCasterOptions) (k : String) (v : Value) (b : Bool),
    nullFreeV v = true → (castField o k v b).isSome
  | o, k, .vStr s, b, _ => castField_total_scalar o k (.vStr s) b rfl
  | o, k, .vNum n, b, _ => castField_total_scalar o k (.vNum n) b rfl
  | o, k, .vBool x, b, _ => castField_total_scalar o k (.vBool x) b rfl
  | o, k, .vNull, b, h => by simp [nullFreeV] at h
  | o, k, .vDate d, b, _ => by
    by_cases hs : schemaSkips o k
    case pos => simp [castField, hs]
    cases hdl : deepLookup o k with
    | none =>
      unfold castField
      simp only [hs, strHit, typeofObject, hdl]
      repeat' split
      all_goals simp_all
    | some dp =>
      by_cases hrw : (resolveOpts (some dp)).rewriteFields <;>
        simp [castField, truthy, hs, strHit, typeofObject, hdl, hrw]
  | o, k, .vObj fs, b, h => by
    by_cases ht : truthy (.vObj fs)
    case neg => simp [castField, ht]
    by_cases hs : schemaSkips o k
    case pos => simp [castField, ht, hs]
    cases hsh : strHit o (.vObj fs) with
    | some cv => simp [castField, ht, hs, hsh]
    | none =>
      cases hdl : deepLookup o k with
      | none =>
        unfold castField
        simp only [ht, hs, hsh, typeofObject, hdl]
        repeat' split
        all_goals simp_all
      | some dp =>
        have hf := castFields_total (resolveOpts (some dp)) fs .nil
          (by simpa [nullFreeV] using h)
        obtain ⟨pr, hpr⟩ := Option.isSome_iff_exists.mp hf
        obtain ⟨c, a⟩ := pr
        by_cases hrw : (resolveOpts (some dp)).rewriteFields <;>
          simp [castField, ht, hs, hsh, typeofObject, hdl, hpr, hrw]
  | o, k, .vArr xs, b, h => by
    by_cases ht : truthy (.vArr xs)
    case neg => simp [castField, ht]
    by_cases hs : schemaSkips o k
    case pos => simp [castField, ht, hs]
    cases hdl : deepLookup o k with
    | none =>
      unfold castField
      simp only [ht, hs, strHit, typeofObject, hdl]
      repeat' split
      all_goals simp_all
    | some dp =>
      have he := castElems_total xs (some dp) (by simpa [nullFreeV] using h)
      obtain ⟨prs, hprs⟩ := Option.isSome_iff_exists.mp he
      simp [castField, ht, hs, strHit, typeofObject, hdl, hprs]

theorem castElems_total : ∀ (es : Elems) (po : Option POpts),
    nullFreeE es = true → (castElems es po).isSome
  | .nil, po, _ => by simp [castElems]
  | .cons x rest, po, h => by
    have h1 : nullFreeV x = true ∧ nullFreeE rest = true := by
      simpa [nullFreeE, Bool.and_eq_true] using h
    have hx := castPair_total x po h1.1
    obtain ⟨pr, hpr⟩ := Option.isSome_iff_exists.mp hx
    have hr := castElems_total rest po h1.2
    obtain ⟨prs, hprs⟩ := Option.isSome_iff_exists.mp hr
    simp [castElems, hpr, hprs]

end

/-- C3 counterexample: `cast` **can** throw.  The record
`{k: [null]}` with `deepCasters: {k: {rewriteFields: true}}` reaches
`cast(null, {rewriteFields:true})` for the array element, whose assembly
runs `Object.assign(null, casted)` — a TypeError.  (Array elements are
deep-cast without the truthiness skip that protects direct fields.) -/
theorem cast_throws_on_null_array_element :
    castPair (.vObj (.cons "k" (.vArr (.cons .vNull .nil)) .nil))
      (some (.mk none none none none none none none none none none
        (some (.cons "k"
          (.mk none none (some true) none none none none none none none none) .nil)))) =
      none := by
  decide

/-- C3 (amended): on records containing no `null` anywhere, `cast` never
throws; and in every case each per-field parse failure is contained — a
field whose pipeline run produces no cast entry is returned with its
original value. -/
theorem cast_total_on_null_free_and_contains_failures :
    (∀ (fs : Fields) (po : Option POpts), nullFreeF fs = true →
      (castV (.vObj fs) po).isSome) ∧
    (∀ (fs : Fields) (po : Option POpts) (k : String) (v : Value) (rr : Fields),
      fs.keys.Nodup → fs.lookup k = some v →
      castField (resolveOpts po) k v false = some (none, v) →
      castV (.vObj fs) po = some (.vObj rr) → rr.lookup k = some v) := by
  constructor
  · intro fs po h
    have h2 := castPair_total (.vObj fs) po (by simpa [nullFreeV] using h)
    obtain ⟨pr, hpr⟩ := Option.isSome_iff_exists.mp h2
    simp [castV, hpr]
  · intro fs po k v rr hn hl hcf hres
    simpa using castV_vObj_lookup fs po rr k v none v hn hl hcf hres

/-- `{stringsToBooleans: true}`. -/
def pBooleansOn : POpts := .mk none none none none none none none (some true) none none none

/-- Closed instance of `cast_total_on_null_free_and_contains_failures`:
the null-free record `{flag:'maybe'}` with the boolean heuristic on — the
literal test fails, the field keeps `'maybe'`, and the call returns. -/
theorem cast_total_and_containment_witness :
    (castV (.vObj (.cons "flag" (.vStr "maybe") .nil)) (some pBooleansOn)).isSome ∧
    (Fields.cons "flag" (.vStr "maybe") .nil).lookup "flag" = some (.vStr "maybe") := by
  refine ⟨cast_total_on_null_free_and_contains_failures.1
    (.cons "flag" (.vStr "maybe") .nil) (some pBooleansOn) (by decide), ?_⟩
  exact cast_total_on_null_free_and_contains_failures.2
    (.cons "flag" (.vStr "maybe") .nil) (some pBooleansOn) "flag" (.vStr "maybe")
    (.cons "flag" (.vStr "maybe") .nil) (by decide) (by decide) (by decide) (by decide)

/-! ### Claim C8 -/

mutual

/-- No deep caster reachable from this partial configuration (at any
nesting depth) requests in-place rewriting. -/
def POpts.noDeepMut : POpts → Bool
  | .mk _ _ _ _ _ _ _ _ _ _ dc =>
    match dc with
    | some dl => dl.noMut
    | none => true

/-- Every entry's configuration neither rewrites in place nor registers a
deeper caster that does. -/
def DeepList.noMut : DeepList → Bool
  | .nil => true
  | .cons _ p rest => !(p.rewriteFields == some true) && p.noDeepMut && rest.noMut

end

/-- `noDeepMut` at the call boundary. -/
def optNoMut : Option POpts → Bool
  | none => true
  | some p => p.noDeepMut

/-- `noDeepMut` read off a resolved configuration. -/
def oNoMut (o : TpsCasterOptions) : Bool :=
  match o.deepCasters with
  | some dl => dl.noMut
  | none => true

/-- Single-motive structural induction for `DeepList`. -/
@[induction_eliminator]
theorem DeepList.inductionOnDeepList {motive : DeepList → Prop} (nil : motive .nil)
    (cons : ∀ k p rest, motive rest → motive (.cons k p rest)) : ∀ dl, motive dl
  | .nil => nil
  | .cons k p rest => cons k p rest (DeepList.inductionOnDeepList nil cons rest)

theorem resolveOpts_fields (p : POpts) :
    (resolveOpts (some p)).rewriteFields = p.rewriteFields.getD false ∧
    (resolveOpts (some p)).schema = p.schema ∧
    (resolveOpts (some p)).deepCasters = p.deepCasters := by
  cases p
  simp [resolveOpts, TpsCasterOptions.ofPartial, TpsCasterOptions.enableAllApply,
    POpts.rewriteFields, POpts.schema, POpts.deepCasters, POpts.enableAll]

theorem optNoMut_oNoMut (po : Option POpts) (h : optNoMut po = true) :
    oNoMut (resolveOpts po) = true := by
  cases po with
  | none => rfl
  | some p =>
    rw [oNoMut, (resolveOpts_fields p).2.2]
    cases p with
    | mk f1 f2 f3 f4 f5 f6 f7 f8 f9 fsch fdc =>
      cases fdc with
      | none => rfl
      | some dl => exact h

theorem DeepList.noMut_lookup (dl : DeepList) (k : String) (dp : POpts)
    (hm : dl.noMut = true) (hl : dl.lookup k = some dp) :
    (resolveOpts (some dp)).rewriteFields = false ∧ optNoMut (some dp) = true := by
  induction dl with
  | nil => simp [DeepList.lookup] at hl
  | cons k' p rest ih =>
    simp only [DeepList.noMut, Bool.and_eq_true, Bool.not_eq_true'] at hm
    by_cases hk : k' = k
    · simp only [DeepList.lookup, if_pos hk, Option.some.injEq] at hl
      subst hl
      refine ⟨?_, by simpa [optNoMut] using hm.1.2⟩
      rw [(resolveOpts_fields p).1]
      cases hrf : p.rewriteFields with
      | none => rfl
      | some bb =>
        cases bb with
        | true =>
          rw [hrf] at hm
          simp at hm
        | false => rfl
    · simp only [DeepList.lookup, if_neg hk] at hl
      exact ih hm.2 hl

mutual

theorem castPair_copy_preserves : ∀ (v : Value) (po : Option POpts) (pr : Value × Value),
    (resolveOpts po).rewriteFields = false → optNoMut po = true →
    castPair v po = some pr → pr.2 = v
  | .vStr s, po, pr, _, _, h => by
    simp only [castPair, Option.some.injEq] at h
    rw [← h]
  | .vNum n, po, pr, _, _, h => by
    simp only [castPair, Option.some.injEq] at h
    rw [← h]
  | .vBool b, po, pr, _, _, h => by
    simp only [castPair, Option.some.injEq] at h
    rw [← h]
  | .vNull, po, pr, hrw, _, h => by
    simp only [castPair, hrw, Bool.false_eq_true, if_false, Option.some.injEq] at h
    rw [← h]
  | .vDate d, po, pr, hrw, _, h => by
    simp only [castPair, hrw, Bool.false_eq_true, if_false, Option.some.injEq] at h
    rw [← h]
  | .vObj fs, po, pr, hrw, hnm, h => by
    obtain ⟨c, a, hcfs, _, h2⟩ := castPair_vObj_inv fs po pr h
    have ha : a = fs :=
      castFields_copy_preserves (resolveOpts po) fs .nil (c, a)
        (optNoMut_oNoMut po hnm) hcfs
    rw [h2, hrw]
    simp [ha]
  | .vArr xs, po, pr, hrw, hnm, h => by
    simp only [castPair] at h
    cases hci : castIdx (resolveOpts po) 0 xs .nil with
    | none => rw [hci] at h; exact absurd h (by simp)
    | some p2 =>
      obtain ⟨c, a⟩ := p2
      rw [hci] at h
      have ha : a = xs :=
        castIdx_copy_preserves (resolveOpts po) 0 xs .nil (c, a)
          (optNoMut_oNoMut po hnm) hci
      rw [hrw] at h
      simp only [Bool.false_eq_true, if_false, Option.some.injEq] at h
      rw [← h]
      simp [ha]

theorem castFields_copy_preserves : ∀ (o : TpsCasterOptions) (fs c : Fields)
    (pr : Fields × Fields), oNoMut o = true → castFields o fs c = some pr → pr.2 = fs
  | o, .nil, c, pr, _, h => by
    simp only [castFields, Option.some.injEq] at h
    rw [← h]
  | o, .cons k v rest, c, pr, hnm, h => by
    obtain ⟨entry, w, after, hcf, hrec, ha⟩ :=
      castFields_cons_inv o k v rest c pr.1 pr.2 (by rw [← h])
    have hw : w = v := castField_copy_preserves o k v (c.hasKey k) (entry, w) hnm hcf
    have hrest : after = rest :=
      castFields_copy_preserves o rest _ (pr.1, after) hnm hrec
    rw [ha, hw, hrest]

theorem castIdx_copy_preserves : ∀ (o : TpsCasterOptions) (i : Nat) (es : Elems) (c : Fields)
    (pr : Fields × Elems), oNoMut o = true → castIdx o i es c = some pr → pr.2 = es
  | o, i, .nil, c, pr, _, h => by
    simp only [castIdx, Option.some.injEq] at h
    rw [← h]
  | o, i, .cons v rest, c, pr, hnm, h => by
    simp only [castIdx] at h
    cases hcf : castField o (toString i) v (c.hasKey (toString i)) with
    | none => rw [hcf] at h; exact absurd h (by simp)
    | some p2 =>
      obtain ⟨entry, w⟩ := p2
      rw [hcf] at h
      have hw : w = v := castField_copy_preserves o (toString i) v _ (entry, w) hnm hcf
      cases entry with
      | none =>
        dsimp only at h
        cases hrec : castIdx o (i + 1) rest c with
        | none => rw [hrec] at h; exact absurd h (by simp)
        | some p3 =>
          obtain ⟨c'', after⟩ := p3
          rw [hrec] at h
          have hrest : after = rest :=
            castIdx_copy_preserves o (i + 1) rest c (c'', after) hnm hrec
          simp only [Option.some.injEq] at h
          rw [← h]
          simp [hw, hrest]
      | some cv =>
        dsimp only at h
        cases hrec : castIdx o (i + 1) rest (c.set (toString i) cv) with
        | none => rw [hrec] at h; exact absurd h (by simp)
        | some p3 =>
          obtain ⟨c'', after⟩ := p3
          rw [hrec] at h
          have hrest : after = rest :=
            castIdx_copy_preserves o (i + 1) rest _ (c'', after) hnm hrec
          simp only [Option.some.injEq] at h
          rw [← h]
          simp [hw, hrest]

theorem castField_copy_preserves : ∀ (o : TpsCasterOptions) (k : String) (v : Value)
    (b : Bool) (pr : Option Value × Value), oNoMut o = true →
    castField o k v b = some pr → pr.2 = v
  | o, k, v, b, pr, hnm, h => by
    by_cases ht : truthy v
    case neg =>
      rw [castField_of_not_truthy o k v b (by simpa using ht)] at h
      simp only [Option.some.injEq] at h
      rw [← h]
    by_cases hs : schemaSkips o k
    case pos =>
      rw [castField_of_schemaSkips o k v b hs] at h
      simp only [Option.some.injEq] at h
      rw [← h]
    cases hsh : strHit o v with
    | some cv =>
      simp only [castField, ht, hs, hsh, Bool.not_true, Bool.false_eq_true, if_false,
        Option.some.injEq] at h
      rw [← h]
    | none =>
      cases htype : typeofObject v with
      | false =>
        unfold castField at h
        simp only [ht, hs, hsh, htype] at h
        repeat' split at h
        all_goals try exact Option.noConfusion h
        all_goals try (simp only [Option.some.injEq] at h; rw [← h])
        all_goals simp_all
      | true =>
        cases hdl : deepLookup o k with
        | none =>
          unfold castField at h
          simp only [ht, hs, hsh, htype, hdl] at h
          repeat' split at h
          all_goals try exact Option.noConfusion h
          all_goals try (simp only [Option.some.injEq] at h; rw [← h])
          all_goals simp_all
        | some dp =>
          have hcond : oNoMut o = true := hnm
          have hdp : (resolveOpts (some dp)).rewriteFields = false ∧
              optNoMut (some dp) = true := by
            rw [oNoMut] at hcond
            cases hdc : o.deepCasters with
            | none => rw [deepLookup, hdc] at hdl; exact absurd hdl (by simp)
            | some dl =>
              rw [hdc] at hcond
              rw [deepLookup, hdc] at hdl
              exact DeepList.noMut_lookup dl k dp hcond hdl
          cases v with
          | vArr xs =>
            unfold castField at h
            simp [ht, hs, hsh, typeofObject, hdl] at h
            cases hel : castElems xs (some dp) with
            | none => rw [hel] at h; exact absurd h (by simp)
            | some prs =>
              rw [hel] at h
              simp only [Option.some.injEq] at h
              rw [← h]
              exact congrArg _ (castElems_copy_preserves xs (some dp) prs
                hdp.1 hdp.2 hel)
          | vObj fs =>
            unfold castField at h
            simp [ht, hs, hsh, typeofObject, hdl] at h
            cases hcfs : castFields (resolveOpts (some dp)) fs .nil with
            | none => rw [hcfs] at h; exact absurd h (by simp)
            | some p2 =>
              obtain ⟨c', a'⟩ := p2
              rw [hcfs] at h
              rw [hdp.1] at h
              simp only [Bool.false_eq_true, if_false, Option.some.injEq] at h
              rw [← h]
              exact congrArg _ (castFields_copy_preserves (resolveOpts (some dp)) fs .nil
                (c', a') (optNoMut_oNoMut (some dp) hdp.2) hcfs)
          | vDate d =>
            unfold castField at h
            simp [ht, hs, hsh, typeofObject, hdl] at h
            rw [hdp.1] at h
            simp only [Bool.false_eq_true, if_false, Option.some.injEq] at h
            rw [← h]
          | vNull => simp [truthy] at ht
          | vStr s => simp [typeofObject] at htype
          | vNum n => simp [typeofObject] at htype
          | vBool bb => simp [typeofObject] at htype

theorem castElems_copy_preserves : ∀ (es : Elems) (po : Option POpts)
    (prs : List (Value × Value)), (resolveOpts po).rewriteFields = false →
    optNoMut po = true → castElems es po = some prs → elemsOfSnd prs = es
  | .nil, po, prs, _, _, h => by
    simp only [castElems, Option.some.injEq] at h
    rw [← h]
    rfl
  | .cons x rest, po, prs, hrw, hnm, h => by
    simp only [castElems] at h
    cases hcp : castPair x po with
    | none => rw [hcp] at h; exact absurd h (by simp)
    | some pr =>
      rw [hcp] at h
      cases hrec : castElems rest po with
      | none => rw [hrec] at h; exact absurd h (by simp)
      | some prs' =>
        rw [hrec] at h
        simp only [Option.some.injEq] at h
        have hx : pr.2 = x := castPair_copy_preserves x po pr hrw hnm hcp
        have hr : elemsOfSnd prs' = rest :=
          castElems_copy_preserves rest po prs' hrw hnm hrec
        rw [← h]
        simp [elemsOfSnd, hx, hr]

end

/-- In mutate mode the input's final state **is** the returned object: the
only `Object.assign` target is the input itself. -/
theorem castPair_mutate_returns_input (v : Value) (po : Option POpts) (pr : Value × Value)
    (hrw : (resolveOpts po).rewriteFields = true) (h : castPair v po = some pr) :
    pr.2 = pr.1 := by
  cases v with
  | vNull => simp [castPair, hrw] at h
  | vStr s => simp only [castPair, Option.some.injEq] at h; rw [← h]
  | vNum n => simp only [castPair, Option.some.injEq] at h; rw [← h]
  | vBool b => simp only [castPair, Option.some.injEq] at h; rw [← h]
  | vDate d =>
    simp only [castPair, hrw, if_true, Option.some.injEq] at h
    rw [← h]
  | vObj fs =>
    obtain ⟨c, a, _, h1, h2⟩ := castPair_vObj_inv fs po pr h
    rw [h1, h2, hrw]
    simp
  | vArr xs =>
    simp only [castPair] at h
    cases hci : castIdx (resolveOpts po) 0 xs .nil with
    | none => rw [hci] at h; exact absurd h (by simp)
    | some p2 =>
      obtain ⟨c, a⟩ := p2
      rw [hci, hrw] at h
      simp only [if_true, Option.some.injEq] at h
      rw [← h]

/-! ### Claim C8: results -/

/-- `{rewriteFields:true, stringsToNumbers:true}` as a deep entry. -/
def pNumRewrite : POpts :=
  .mk none none (some true) (some true) none none none none none none none

/-- `{deepCasters:{prices:{rewriteFields:true, stringsToNumbers:true}}}`
(outer `rewriteFields` left unset, i.e. false). -/
def pDeepRewrite : POpts :=
  .mk none none none none none none none none none none
    (some (.cons "prices" pNumRewrite .nil))

/-- `{prices:[{price:'1'}]}`. -/
def deepMutRecord : Fields :=
  .cons "prices" (.vArr (.cons (.vObj (.cons "price" (.vStr "1") .nil)) .nil)) .nil

/-- C8 counterexample: with the outer `rewriteFields` false, the input is
**not** unmodified after the call — a deep caster with `rewriteFields:
true` runs `Object.assign` on the nested element objects the input still
references, so `{prices:[{price:'1'}]}` ends the call with its nested
`price` already a number even though the outer call was asked for a copy. -/
theorem copy_mode_input_mutated_by_deep_rewrite :
    (resolveOpts (some pDeepRewrite)).rewriteFields = false ∧
    castPair (.vObj deepMutRecord) (some pDeepRewrite) =
      some (.vObj (.cons "prices" (.vArr (.cons (.vObj (.cons "price" (.vNum (.fin 1)) .nil))
          .nil)) .nil),
        .vObj (.cons "prices" (.vArr (.cons (.vObj (.cons "price" (.vNum (.fin 1)) .nil))
          .nil)) .nil)) ∧
    Value.vObj (.cons "prices" (.vArr (.cons (.vObj (.cons "price" (.vNum (.fin 1)) .nil))
        .nil)) .nil) ≠ .vObj deepMutRecord := by
  refine ⟨rfl, by decide, by decide⟩

/-- C8 (amended): `rewriteFields` controls copy-vs-mutate **at each level**:
when it is false and no nested deep caster rewrites in place, the input
value is unmodified after the call; when it is true, the coerced fields are
written onto the input itself, whose final state is exactly the returned
record. -/
theorem rewriteFields_controls_mutation :
    (∀ (v : Value) (po : Option POpts) (pr : Value × Value),
      (resolveOpts po).rewriteFields = false → optNoMut po = true →
      castPair v po = some pr → pr.2 = v) ∧
    (∀ (v : Value) (po : Option POpts) (pr : Value × Value),
      (resolveOpts po).rewriteFields = true →
      castPair v po = some pr → pr.2 = pr.1) :=
  ⟨castPair_copy_preserves, castPair_mutate_returns_input⟩

/-- `{rewriteFields: true, stringsToNumbers: true}` at top level. -/
def pNumbersRewrite : POpts :=
  .mk none none (some true) (some true) none none none none none none none

/-- Closed instance of `rewriteFields_controls_mutation`: `{id:'123'}` with
the numbers toggle — copy mode leaves the input untouched, mutate mode
returns the input's own final state. -/
theorem rewriteFields_controls_mutation_witness :
    ((castPair (.vObj (.cons "id" (.vStr "123") .nil)) (some pNumbersOn)).map Prod.snd =
      some (.vObj (.cons "id" (.vStr "123") .nil))) ∧
    ((castPair (.vObj (.cons "id" (.vStr "123") .nil)) (some pNumbersRewrite)).map
        (fun pr => pr.2 = pr.1) = some True) := by
  constructor
  · have h1 : castPair (.vObj (.cons "id" (.vStr "123") .nil)) (some pNumbersOn) =
        some (.vObj (.cons "id" (.vNum (.fin 123)) .nil), .vObj (.cons "id" (.vStr "123") .nil)) := by
      decide
    rw [h1]
    have := rewriteFields_controls_mutation.1 (.vObj (.cons "id" (.vStr "123") .nil))
      (some pNumbersOn) (.vObj (.cons "id" (.vNum (.fin 123)) .nil),
        .vObj (.cons "id" (.vStr "123") .nil)) rfl (by decide) h1
    simp [this]
  · have h2 : castPair (.vObj (.cons "id" (.vStr "123") .nil)) (some pNumbersRewrite) =
        some (.vObj (.cons "id" (.vNum (.fin 123)) .nil), .vObj (.cons "id" (.vNum (.fin 123)) .nil)) := by
      decide
    rw [h2]
    have := rewriteFields_controls_mutation.2 (.vObj (.cons "id" (.vStr "123") .nil))
      (some pNumbersRewrite) (.vObj (.cons "id" (.vNum (.fin 123)) .nil),
        .vObj (.cons "id" (.vNum (.fin 123)) .nil)) rfl h2
    simp [this]

/-- Pointwise predicate over every field value of a record. -/
def Fields.Forall (P : Value → Prop) : Fields → Prop
  | .nil => True
  | .cons _ v rest => P v ∧ Fields.Forall P rest

/-- With unique keys, a property of every looked-up value is a property of
every field entry. -/
theorem Fields.forall_of_lookup {P : Value → Prop} (fs : Fields) (hn : fs.keys.Nodup)
    (h : ∀ k v, fs.lookup k = some v → P v) : Fields.Forall P fs := by
  induction fs with
  | nil => trivial
  | cons k v rest ih =>
    simp [Fields.keys] at hn
    refine ⟨h k v (by simp [Fields.lookup]), ih hn.2 ?_⟩
    intro k' v' hl
    have hk' : k' ∈ rest.keys := (Fields.lookup_isSome_iff_mem_keys rest k').mp (by simp [hl])
    have hne : k ≠ k' := fun he => hn.1 (he ▸ hk')
    exact h k' v' (by simp [Fields.lookup, hne, hl])

/-! ### Claim C9 -/

/-- `_castFromString` never returns a string: its possible outputs are a
number, a date, a boolean, or a parsed object/array. -/
theorem castFromString_ne_vStr (val : String) (opts : Option TpsCasterOptions)
    (toType : Option SchemaTy) (s : String) :
    castFromString val opts toType ≠ some (.vStr s) := by
  intro h
  unfold castFromString at h
  repeat' split at h
  all_goals simp_all [typeofObject]

/-- A successful `strHit` comes from `_castFromString`. -/
theorem strHit_some (o : TpsCasterOptions) (v cv : Value) (h : strHit o v = some cv) :
    ∃ s, castFromString s (some o) none = some cv := by
  cases v with
  | vStr s =>
    simp only [strHit] at h
    by_cases hl : 0 < s.length
    · rw [if_pos hl] at h
      exact ⟨s, h⟩
    · rw [if_neg hl] at h
      exact absurd h (by simp)
  | vNull => exact absurd h (by simp [strHit])
  | vNum n => exact absurd h (by simp [strHit])
  | vBool b => exact absurd h (by simp [strHit])
  | vDate d => exact absurd h (by simp [strHit])
  | vObj fs => exact absurd h (by simp [strHit])
  | vArr es => exact absurd h (by simp [strHit])

/-- The string heuristics never fire on a `_castFromString` output (it is
not a string). -/
theorem strHit_none_of_castFromString (o : TpsCasterOptions) (cv : Value)
    (h : ∃ s, ∃ opts, ∃ toType, castFromString s opts toType = some cv) :
    strHit o cv = none := by
  obtain ⟨s, opts, tt, hh⟩ := h
  cases cv with
  | vStr s2 => exact absurd hh (castFromString_ne_vStr s opts tt s2)
  | vNull => rfl
  | vNum n => rfl
  | vBool b => rfl
  | vDate d => rfl
  | vObj fs => rfl
  | vArr es => rfl

/-- A record none of whose values trigger the string heuristics passes the
loop unchanged under a schema-free, deep-caster-free configuration. -/
theorem castFields_all_strHit_none (o : TpsCasterOptions)
    (hs : o.schema = none) (hd : o.deepCasters = none) :
    ∀ (gs c : Fields), Fields.Forall (fun v => strHit o v = none) gs →
      castFields o gs c = some (c, gs) := by
  intro gs
  induction gs with
  | nil => intro c _; simp [castFields]
  | cons k v rest ih =>
    intro c hfa
    obtain ⟨hv, hrest⟩ := hfa
    have hcf := castField_no_schema_no_deep o k v (c.hasKey k) hs hd
    rw [hv] at hcf
    simp [castFields, hcf, ih c hrest]

/-- Under a schema-free, deep-caster-free configuration the loop never
mutates: the reported post-states are the original fields. -/
theorem castFields_after_self_no_schema_deep (o : TpsCasterOptions)
    (hs : o.schema = none) (hd : o.deepCasters = none) :
    ∀ (fs c c' a : Fields), castFields o fs c = some (c', a) → a = fs := by
  intro fs
  induction fs with
  | nil =>
    intro c c' a h
    simp only [castFields, Option.some.injEq, Prod.mk.injEq] at h
    rw [← h.2]
  | cons k v rest ih =>
    intro c c' a h
    obtain ⟨entry, w, after, hcf, hrec, ha⟩ := castFields_cons_inv o k v rest c c' a h
    have hw := castField_no_schema_no_deep o k v (c.hasKey k) hs hd
    rw [hw] at hcf
    have hweq : w = v := by
      have h2 := hcf
      injection h2 with h3
      exact (congrArg Prod.snd h3).symm
    rw [ha, hweq, ih _ _ _ hrec]

/-- Under a schema-free, deep-caster-free configuration the `casted`
accumulator only ever holds `_castFromString` outputs. -/
theorem castFields_casted_values (o : TpsCasterOptions)
    (hs : o.schema = none) (hd : o.deepCasters = none) :
    ∀ (fs c c' a : Fields), castFields o fs c = some (c', a) →
      (∀ k cv, c.lookup k = some cv → ∃ s, castFromString s (some o) none = some cv) →
      ∀ k cv, c'.lookup k = some cv → ∃ s, castFromString s (some o) none = some cv := by
  intro fs
  induction fs with
  | nil =>
    intro c c' a h hinv k cv hk
    simp only [castFields, Option.some.injEq, Prod.mk.injEq] at h
    exact hinv k cv (h.1 ▸ hk)
  | cons k0 v rest ih =>
    intro c c' a h hinv k cv hk
    obtain ⟨entry, w, after, hcf, hrec, _⟩ := castFields_cons_inv o k0 v rest c c' a h
    have hw := castField_no_schema_no_deep o k0 v (c.hasKey k0) hs hd
    rw [hw] at hcf
    have hentry : entry = strHit o v := by
      have h2 := hcf
      injection h2 with h3
      exact (congrArg Prod.fst h3).symm
    cases hsv : strHit o v with
    | none =>
      rw [hentry, hsv] at hrec
      exact ih _ _ _ hrec hinv k cv hk
    | some cv0 =>
      rw [hentry, hsv] at hrec
      refine ih _ _ _ hrec ?_ k cv hk
      intro k' cv' hk'
      by_cases hke : k' = k0
      · subst hke
        rw [Fields.lookup_set_self] at hk'
        have : cv0 = cv' := by injection hk'
        exact this ▸ strHit_some o v cv0 hsv
      · rw [Fields.lookup_set_ne c k' k0 cv0 (fun he => hke he.symm)] at hk'
        exact hinv k' cv' hk'

/-- `{stringsToNumbers:true, schema:{x:'date'}}`. -/
def pNumbersDateSchema : POpts :=
  .mk none none none (some true) none none none none none (some [("x", .ty .date)]) none

/-- C9 counterexample: with the numbers toggle on and a schema forcing `x`
to `date`, the first `cast` of `{x:'5'}` coerces `x` to the number `5`
(string heuristics run first and `continue`), but a second `cast` of that
output hits the schema-forced pass — `typeof 5 === 'number'`, target
`date` — and turns the already-coerced field into `new Date(5)`. -/
theorem second_cast_changes_coerced_field :
    castV (.vObj (.cons "x" (.vStr "5") .nil)) (some pNumbersDateSchema) =
      some (.vObj (.cons "x" (.vNum (.fin 5)) .nil)) ∧
    castV (.vObj (.cons "x" (.vNum (.fin 5)) .nil)) (some pNumbersDateSchema) =
      some (.vObj (.cons "x" (.vDate (some 5)) .nil)) ∧
    Value.vDate (some 5) ≠ Value.vNum (.fin 5) :=
  ⟨by decide, by decide, by decide⟩

/-- C9 (amended): for configurations with no schema and no deep casters,
`cast` is idempotent outright — a second application returns its input
unchanged, so in particular no field coerced by the first application
changes again. -/
theorem cast_idempotent_without_schema_and_deep (fs : Fields) (po : Option POpts) (r : Value)
    (hn : fs.keys.Nodup)
    (hs : (resolveOpts po).schema = none)
    (hd : (resolveOpts po).deepCasters = none)
    (h1 : castV (.vObj fs) po = some r) :
    castV r po = some r := by
  obtain ⟨pr, hpr, hfst⟩ : ∃ pr, castPair (.vObj fs) po = some pr ∧ pr.1 = r := by
    cases hcp : castPair (.vObj fs) po with
    | none => simp [castV, hcp] at h1
    | some pr => exact ⟨pr, rfl, by simpa [castV, hcp] using h1⟩
  obtain ⟨c, a, hcfs, hres1, _⟩ := castPair_vObj_inv fs po pr hpr
  have ha : a = fs := castFields_after_self_no_schema_deep (resolveOpts po) hs hd fs .nil c a hcfs
  subst ha
  have hr : r = .vObj (a.assign c) := hfst ▸ hres1
  have hcnodup : c.keys.Nodup :=
    castFields_casted_nodup (resolveOpts po) a .nil c a (by simp [Fields.keys]) hcfs
  have hckeys : ∀ k, k ∈ c.keys → k ∈ a.keys := by
    intro k hk
    rcases castFields_casted_keys (resolveOpts po) a .nil c a k hcfs hk with h0 | h0
    · simp [Fields.keys] at h0
    · exact h0
  have hgkeys : (a.assign c).keys = a.keys := Fields.keys_assign a c hckeys
  have hgnodup : (a.assign c).keys.Nodup := hgkeys ▸ hn
  have hvals : ∀ k v', (a.assign c).lookup k = some v' →
      strHit (resolveOpts po) v' = none := by
    intro k v' hk
    rw [Fields.lookup_assign a c k hcnodup] at hk
    cases hc : c.lookup k with
    | some cv =>
      simp only [hc] at hk
      have hcv : cv = v' := by injection hk
      refine strHit_none_of_castFromString (resolveOpts po) v' ?_
      obtain ⟨s, hfss⟩ := castFields_casted_values (resolveOpts po) hs hd a .nil c a hcfs
        (by intro k' cv' hk'; exact absurd hk' (by simp [Fields.lookup])) k cv hc
      exact ⟨s, some (resolveOpts po), none, hcv ▸ hfss⟩
    | none =>
      simp only [hc] at hk
      obtain ⟨entry, w, hcf, hcl, _⟩ :=
        castFields_at_key (resolveOpts po) a .nil c a k v' hn hk rfl hcfs
      have hw := castField_no_schema_no_deep (resolveOpts po) k v' false hs hd
      rw [hw] at hcf
      have hentry : entry = strHit (resolveOpts po) v' := by
        have h2 := hcf
        injection h2 with h3
        exact (congrArg Prod.fst h3).symm
      rw [hentry] at hcl
      rw [← hcl, hc]
  have hfa : Fields.Forall (fun v => strHit (resolveOpts po) v = none) (a.assign c) :=
    Fields.forall_of_lookup (a.assign c) hgnodup hvals
  have h2 : castFields (resolveOpts po) (a.assign c) .nil = some (.nil, a.assign c) :=
    castFields_all_strHit_none (resolveOpts po) hs hd (a.assign c) .nil hfa
  rw [hr]
  by_cases hrw : (resolveOpts po).rewriteFields <;>
    simp [castV, castPair, h2, hrw, Fields.assign_nil]

/-- Closed instance of `cast_idempotent_without_schema_and_deep`:
`{id:'123'}` with the numbers toggle — the second `cast` returns the first
cast's output unchanged. -/
theorem cast_idempotent_witness :
    castV (.vObj (.cons "id" (.vStr "123") .nil)) (some pNumbersOn) =
      some (.vObj (.cons "id" (.vNum (.fin 123)) .nil)) ∧
    castV (.vObj (.cons "id" (.vNum (.fin 123)) .nil)) (some pNumbersOn) =
      some (.vObj (.cons "id" (.vNum (.fin 123)) .nil)) := by
  refine ⟨by decide, ?_⟩
  exact cast_idempotent_without_schema_and_deep
    (.cons "id" (.vStr "123") .nil) (some pNumbersOn)
    (.vObj (.cons "id" (.vNum (.fin 123)) .nil))
    (by decide) rfl rfl (by decide)

end TpsUtils
